import Mathlib

/-! VibraVision: the DSP core (`dsp_core.h`) and its serialization (`native_lib.cpp`).

A shallow embedding of `DSPCore` (FFT, sub-bin interpolation, harmonic peak
search, fault classification), of the result record it fills, and of
`finalizeScan` and `runSelfTest`, which flatten the record for the caller.

Modelling conventions.

* A C++ `double` is an element of a linearly ordered field `K` with a floor
  function (exact arithmetic: no rounding, no NaN, no infinities).  Decimal
  constants of the source keep their decimal spelling.
* `std::complex<double>` is a commutative ring `C`.  The library functions the
  source calls (`M_PI`, `std::cos`, `std::polar`, `std::abs` on a complex number
  and the two-argument complex constructor) are the fields of `MathOps`; the
  theorems either hold for every choice of them, or state what they need as a
  hypothesis, or are stated for `ℝ` and `ℂ` with the functions of analysis.
* A C++ `int` is an `Int`; the one conversion from `double` to `int` is checked
  against the 32-bit range.  `size_t` arithmetic wraps modulo `2 ^ 64`.
* A read outside a vector is undefined behaviour; the functions that can perform
  one return `Option`, with `none` for that case.
* A field of `DSPResult` that is never assigned holds `none`.
-/

namespace VibraVision

/-- The source constant `FFT_SIZE`. -/
def FFT_SIZE : Nat := 512

/-- The record `ScanConfig`. -/
structure ScanConfig (K : Type) where
  actual_fps : K
  target_rpm : K

/-- The enumeration `FaultType`, in the order of its ordinals 0..5. -/
inductive FaultType where
  | NO_FAULT
  | UNBALANCE
  | MISALIGNMENT
  | LOOSENESS
  | UNMEASURABLE
  | INSUFFICIENT_DATA
  deriving DecidableEq

/-- The record `DSPResult`.  `DSPResult result;` leaves the three `double`
fields indeterminate until they are assigned: `none` is "never assigned". -/
structure DSPResult (K : Type) where
  fault : FaultType
  dominant_frequency : Option K
  peak_amplitude : Option K
  confidence : Option K
  message : String
  spectrum : List K

/-- The library functions used by the source. -/
structure MathOps (K C : Type) where
  /-- The constant `M_PI`. -/
  pi : K
  /-- The function `std::cos`. -/
  cos : K → K
  /-- The function `std::polar(rho, theta)`. -/
  polar : K → K → C
  /-- The function `std::abs` on `std::complex<double>`. -/
  cabs : C → K
  /-- The constructor `std::complex<double>(re, im)`. -/
  complex : K → K → C

/-- What `finalizeScan` hands back: the returned pointer (`none` is `nullptr`,
otherwise the doubles of the array, an indeterminate one being `none`) and the
value stored in `*out_size`. -/
structure ScanOutput (K : Type) where
  data : Option (List (Option K))
  out_size : Int

/-- The three fault rules of the classifier, for statements about their order. -/
inductive Rule where
  | unbalance
  | misalignment
  | looseness
  deriving DecidableEq

section Core

variable {K C : Type} [LinearOrderedField K] [FloorRing K] [CommRing C]

/-- The body of `computeFFT` after the recursive calls: the butterfly loop
`x[k] = even[k] + t; x[k + n/2] = even[k] - t` for `k < n/2`; an entry of `x`
at index `2 * (n/2)` (odd `n`) is left as it was. -/
def butterfly (ops : MathOps K C) (n : Nat) (x even odd : List C) : List C :=
  let t : Nat → C := fun k =>
    ops.polar 1.0 (-2.0 * ops.pi * (k : K) / (n : K)) * odd.getD k 0
  (List.range (n / 2)).map (fun k => even.getD k 0 + t k)
    ++ (List.range (n / 2)).map (fun k => even.getD k 0 - t k)
    ++ x.drop (2 * (n / 2))

/-- The method `DSPCore::computeFFT` (recursive radix-2 Cooley-Tukey); the
in-place update is returned as a new list. -/
def computeFFT (ops : MathOps K C) (x : List C) : List C :=
  if h : x.length ≤ 1 then x
  else
    let n := x.length
    let even := (List.range (n / 2)).map (fun i => x.getD (i * 2) 0)
    let odd := (List.range (n / 2)).map (fun i => x.getD (i * 2 + 1) 0)
    butterfly ops n x (computeFFT ops even) (computeFFT ops odd)
termination_by x.length
decreasing_by
  all_goals simp_wf
  all_goals omega

/-- A read `spectrum[i]` with an `int` index: `none` outside the vector. -/
def readAt (spectrum : List K) (i : Int) : Option K :=
  if 0 ≤ i then spectrum[i.toNat]? else none

/-- The value of the `size_t` expression `spectrum.size() - 1`. -/
def sizeMinusOne (spectrum : List K) : Nat :=
  (spectrum.length + 2 ^ 64 - 1) % 2 ^ 64

/-- The method `DSPCore::interpolatePeak`.  In `peak_bin >= spectrum.size() - 1`
the right side is unsigned and `peak_bin`, positive there, converts to itself. -/
def interpolatePeak (spectrum : List K) (peak_bin : Int) : Option K :=
  if peak_bin ≤ 0 ∨ peak_bin ≥ (sizeMinusOne spectrum : Int) then some (peak_bin : K)
  else
    match readAt spectrum (peak_bin - 1), readAt spectrum peak_bin,
        readAt spectrum (peak_bin + 1) with
    | some alpha, some beta, some gamma =>
      if alpha ≤ 0 ∨ gamma ≤ 0 ∨ beta ≤ alpha ∨ beta ≤ gamma then some (peak_bin : K)
      else
        let delta := 0.5 * (alpha - gamma) / (alpha - 2.0 * beta + gamma)
        some ((peak_bin : K) + delta)
    | _, _, _ => none

/-- The value `spectrum[i]` read by the two peak-search loops, whose index
runs over `1 <= i <= spectrum.size() - 1`. -/
def binValue (spectrum : List K) (i : Int) : K := spectrum.getD i.toNat 0

/-- One pass of the loop body shared by the two peak searches:
`if (spectrum[i] > max) { max = spectrum[i]; bin = i; }`. -/
def peakStep (spectrum : List K) (st : K × Int) (i : Int) : K × Int :=
  if binValue spectrum i > st.1 then (binValue spectrum i, i) else st

/-- The indices `lo, lo+1, ..., hi` visited by `for (int i = lo; i <= hi; i++)`. -/
def loopRange (lo hi : Int) : List Int :=
  (List.range (hi + 1 - lo).toNat).map (fun j => lo + (j : Int))

/-- The state of a peak-search loop after it has visited `lo, ..., lo + n - 1`
from the state `st`. -/
def scanFrom (spectrum : List K) (lo : Int) (n : Nat) (st : K × Int) : K × Int :=
  ((List.range n).map (fun j => lo + (j : Int))).foldl (peakStep spectrum) st

/-- The method `DSPCore::findPeakAmplitude`: the returned amplitude and the
value left in `actual_peak_bin`. -/
def findPeakAmplitude (spectrum : List K) (expected_bin : Int) : K × Int :=
  let start := max 1 (expected_bin - 2)
  let stop := min ((spectrum.length : Int) - 1) (expected_bin + 2)
  (loopRange start stop).foldl (peakStep spectrum) (0.0, expected_bin)

/-- The function `std::round`: nearest integer, halfway cases away from zero. -/
def cRound (x : K) : Int :=
  if 0 ≤ x then ⌊x + 1 / 2⌋ else ⌈x - 1 / 2⌉

/-- The conversion of an integral `double` to `int`: undefined outside the
range of a 32-bit `int`. -/
def toInt32 (z : Int) : Option Int :=
  if -2 ^ 31 ≤ z ∧ z < 2 ^ 31 then some z else none

/-- The noise floor of `analyze`: the residual mean, floored at `0.0001`. -/
def noiseFloor (noise_sum amp_1x amp_2x amp_3x : K) : K :=
  let noise_floor := (noise_sum - amp_1x - amp_2x - amp_3x) / ((FFT_SIZE : K) / 2.0 - 3)
  if noise_floor ≤ 0.0001 then 0.0001 else noise_floor

/-- The "Physics-Based ISO-style Fault Rules" of `analyze`: the ordered
`if / else if` chain on the three ratios, with the message it sets. -/
def classify (r_1x r_2x r_3x : K) : FaultType × String :=
  if r_1x > 5.0 ∧ r_2x < 3.0 ∧ r_3x < 3.0 then
    (FaultType.UNBALANCE, "WARNING: Mass Unbalance Detected (High 1X)")
  else if r_2x > r_1x ∧ r_2x > 5.0 then
    (FaultType.MISALIGNMENT, "WARNING: Shaft Misalignment (Dominant 2X)")
  else if r_1x > 3.0 ∧ r_2x > 3.0 ∧ r_3x > 3.0 then
    (FaultType.LOOSENESS, "CRITICAL: Mechanical Looseness (Harmonic Forest)")
  else
    (FaultType.NO_FAULT, "HEALTHY: Vibration within normal limits.")

/-- The preprocessing loop of `analyze`: mean removal and Hann window over the
512 entries of `signal`, each emitted as a complex number with zero imaginary
part. -/
def windowed (ops : MathOps K C) (signal : List K) : List C :=
  let mean := signal.foldl (· + ·) 0.0 / (FFT_SIZE : K)
  (List.range FFT_SIZE).map (fun (i : Nat) =>
    let multiplier :=
      0.5 * (1.0 - ops.cos (2.0 * ops.pi * (i : K) / ((FFT_SIZE - 1 : Nat) : K)))
    ops.complex ((signal.getD i 0 - mean) * multiplier) 0.0)

/-- The magnitude loop of `analyze`: `spectrum[k] = |X[k]| / (FFT_SIZE / 2.0)`
for `k < FFT_SIZE / 2`, where `X` is the transform of the windowed signal. -/
def magnitudeSpectrum (ops : MathOps K C) (signal : List K) : List K :=
  let complex_signal := computeFFT ops (windowed ops signal)
  (List.range (FFT_SIZE / 2)).map (fun k =>
    ops.cabs (complex_signal.getD k 0) / ((FFT_SIZE : K) / 2.0))

/-- The blind-mode loop of `analyze`: `(max_val, max_bin)` after scanning the
bins `1 .. FFT_SIZE/2 - 1` from the initial `(0, 1)`. -/
def blindPeak (spectrum : List K) : K × Int :=
  (loopRange 1 (((FFT_SIZE / 2 : Nat) : Int) - 1)).foldl (peakStep spectrum) (0, 1)

/-- The method `DSPCore::analyze`. -/
def analyze (ops : MathOps K C) (raw_signal : List K) (config : ScanConfig K) :
    Option (DSPResult K) :=
  if raw_signal.length < FFT_SIZE then
    some { fault := FaultType.INSUFFICIENT_DATA
           dominant_frequency := none
           peak_amplitude := none
           confidence := none
           message := "Need at least " ++ toString FFT_SIZE ++ " frames."
           spectrum := List.replicate (FFT_SIZE / 2) 0.0 }
  else
    let signal := raw_signal.drop (raw_signal.length - FFT_SIZE)
    let spectrum := magnitudeSpectrum ops signal
    let noise_sum := spectrum.foldl (· + ·) 0.0
    let freq_resolution := config.actual_fps / (FFT_SIZE : K)
    let nyquist := config.actual_fps / 2.0
    if config.target_rpm ≤ 0 then
      let max_val := (blindPeak spectrum).1
      let max_bin := (blindPeak spectrum).2
      (interpolatePeak spectrum max_bin).map (fun exact_bin =>
        { fault := FaultType.NO_FAULT
          dominant_frequency := some (exact_bin * freq_resolution)
          peak_amplitude := some max_val
          confidence := none
          message := "Self-Test / Blind Scan Complete"
          spectrum := spectrum })
    else
      let f_1x := config.target_rpm / 60.0
      if f_1x ≥ nyquist * 0.85 then
        some { fault := FaultType.UNMEASURABLE
               dominant_frequency := none
               peak_amplitude := none
               confidence := none
               message := "RPM exceeds Nyquist safety limit. Increase FPS."
               spectrum := spectrum }
      else
        (toInt32 (cRound (f_1x / freq_resolution))).bind (fun bin_1x_expected =>
        (toInt32 (cRound ((f_1x * 2.0) / freq_resolution))).bind (fun bin_2x_expected =>
        (toInt32 (cRound ((f_1x * 3.0) / freq_resolution))).bind (fun bin_3x_expected =>
          let amp_1x := (findPeakAmplitude spectrum bin_1x_expected).1
          let actual_bin_1x := (findPeakAmplitude spectrum bin_1x_expected).2
          let amp_2x := (findPeakAmplitude spectrum bin_2x_expected).1
          let amp_3x := (findPeakAmplitude spectrum bin_3x_expected).1
          let noise_floor := noiseFloor noise_sum amp_1x amp_2x amp_3x
          let r_1x := amp_1x / noise_floor
          let r_2x := amp_2x / noise_floor
          let r_3x := amp_3x / noise_floor
          (interpolatePeak spectrum actual_bin_1x).map (fun exact_bin_1x =>
            { fault := (classify r_1x r_2x r_3x).1
              dominant_frequency := some (exact_bin_1x * freq_resolution)
              peak_amplitude := some amp_1x
              confidence := none
              message := (classify r_1x r_2x r_3x).2
              spectrum := spectrum }))))

/-- The ordinal of a `FaultType`: the value of `static_cast<double>(result.fault)`. -/
def FaultType.ordinal : FaultType → Nat
  | FaultType.NO_FAULT => 0
  | FaultType.UNBALANCE => 1
  | FaultType.MISALIGNMENT => 2
  | FaultType.LOOSENESS => 3
  | FaultType.UNMEASURABLE => 4
  | FaultType.INSUFFICIENT_DATA => 5

/-- The conversion `static_cast<int32_t>(n)` of a `size_t` value. -/
def castInt32 (n : Nat) : Int := ((n : Int) + 2 ^ 31) % 2 ^ 32 - 2 ^ 31

/-- The function `finalizeScan` of `native_lib.cpp`; the file-scope
`signal_buffer` is an argument. -/
def finalizeScan (ops : MathOps K C) (signal_buffer : List K) (actual_fps target_rpm : K) :
    Option (ScanOutput K) :=
  if signal_buffer.isEmpty then some { data := none, out_size := 0 }
  else
    (analyze ops signal_buffer { actual_fps := actual_fps, target_rpm := target_rpm }).map
      (fun result =>
        let output : List (Option K) :=
          [result.dominant_frequency, result.peak_amplitude, result.confidence,
            some (result.fault.ordinal : K), some (result.spectrum.length : K)]
            ++ result.spectrum.map some
        { data := some output, out_size := castInt32 output.length })

/-- The sample loop of `runSelfTest` in `native_lib.cpp`: `FFT_SIZE` samples
`sin(2.0 * M_PI * target_hz * t)` at `t = i / fps`; `sin` is `std::sin`. -/
def selfTestSignal (ops : MathOps K C) (sin : K → K) (fps target_hz : K) : List K :=
  (List.range FFT_SIZE).map (fun (i : Nat) =>
    sin (2.0 * ops.pi * target_hz * ((i : K) / fps)))

/-- The function `runSelfTest` of `native_lib.cpp`. -/
def runSelfTest (ops : MathOps K C) (sin : K → K) (fps target_hz : K) :
    Option (ScanOutput K) :=
  finalizeScan ops (selfTestSignal ops sin fps target_hz) fps 0.0

/-- The quotient `analyze` computes before flooring the noise floor. -/
def rawNoiseFloor (noise_sum amp_1x amp_2x amp_3x : K) : K :=
  (noise_sum - amp_1x - amp_2x - amp_3x) / ((FFT_SIZE : K) / 2.0 - 3)

/-- The indices at which `findPeakAmplitude` reads `spectrum`: the values of its
loop variable. -/
def findPeakReads (spectrum : List K) (expected_bin : Int) : List Int :=
  loopRange (max 1 (expected_bin - 2)) (min ((spectrum.length : Int) - 1) (expected_bin + 2))

/-- The indices at which `interpolatePeak` reads `spectrum`. -/
def interpolateReads (spectrum : List K) (peak_bin : Int) : List Int :=
  if peak_bin ≤ 0 ∨ peak_bin ≥ (sizeMinusOne spectrum : Int) then []
  else [peak_bin - 1, peak_bin, peak_bin + 1]

/-- The indices at which `analyze` reads or writes `result.spectrum`, in program
order: the magnitude loop, then the blind-mode loop and the interpolation, or
the three harmonic searches and the interpolation. -/
def analyzeReads (ops : MathOps K C) (raw_signal : List K) (config : ScanConfig K) :
    List Int :=
  if raw_signal.length < FFT_SIZE then []
  else
    let signal := raw_signal.drop (raw_signal.length - FFT_SIZE)
    let spectrum := magnitudeSpectrum ops signal
    let freq_resolution := config.actual_fps / (FFT_SIZE : K)
    let nyquist := config.actual_fps / 2.0
    let magnitude_loop := (List.range (FFT_SIZE / 2)).map (fun (k : Nat) => (k : Int))
    if config.target_rpm ≤ 0 then
      magnitude_loop ++ loopRange 1 (((FFT_SIZE / 2 : Nat) : Int) - 1)
        ++ interpolateReads spectrum (blindPeak spectrum).2
    else
      let f_1x := config.target_rpm / 60.0
      if f_1x ≥ nyquist * 0.85 then magnitude_loop
      else
        match toInt32 (cRound (f_1x / freq_resolution)),
            toInt32 (cRound ((f_1x * 2.0) / freq_resolution)),
            toInt32 (cRound ((f_1x * 3.0) / freq_resolution)) with
        | some bin_1x_expected, some bin_2x_expected, some bin_3x_expected =>
          magnitude_loop ++ findPeakReads spectrum bin_1x_expected
            ++ findPeakReads spectrum bin_2x_expected
            ++ findPeakReads spectrum bin_3x_expected
            ++ interpolateReads spectrum (findPeakAmplitude spectrum bin_1x_expected).2
        | _, _, _ => magnitude_loop

/-- From the glossary's words: the average spectral magnitude over the bins
`0 <= k < 256` other than the listed bins. -/
def meanExcluding (spectrum : List K) (bins : List Int) : K :=
  let kept := (List.range (FFT_SIZE / 2)).filter (fun (k : Nat) => decide ((k : Int) ∉ bins))
  (kept.map (fun k => spectrum.getD k 0)).sum / (kept.length : K)

/-- Whether a fault rule matches a ratio triple. -/
def Rule.fires (r_1x r_2x r_3x : K) : Rule → Bool
  | Rule.unbalance => decide (r_1x > 5.0 ∧ r_2x < 3.0 ∧ r_3x < 3.0)
  | Rule.misalignment => decide (r_2x > r_1x ∧ r_2x > 5.0)
  | Rule.looseness => decide (r_1x > 3.0 ∧ r_2x > 3.0 ∧ r_3x > 3.0)

/-- The fault a rule reports. -/
def Rule.fault : Rule → FaultType
  | Rule.unbalance => FaultType.UNBALANCE
  | Rule.misalignment => FaultType.MISALIGNMENT
  | Rule.looseness => FaultType.LOOSENESS

/-- The classifier with its rules tried in a given order, first match winning,
`NO_FAULT` when none matches. -/
def classifyInOrder (order : List Rule) (r_1x r_2x r_3x : K) : FaultType :=
  match order.find? (Rule.fires r_1x r_2x r_3x) with
  | some rule => rule.fault
  | none => FaultType.NO_FAULT

/-- A buffer of 512 samples whose windowed form is `1` at the indices 1, 129,
257, 385 and `0` elsewhere: the four samples undo the Hann weight, sample 0
(of weight zero) makes the mean vanish. -/
def combSignal (ops : MathOps K C) : List K :=
  let h : Nat → K := fun i =>
    1 / (0.5 * (1.0 - ops.cos (2.0 * ops.pi * (i : K) / ((FFT_SIZE - 1 : Nat) : K))))
  (List.range FFT_SIZE).map (fun (i : Nat) =>
    if i = 0 then -(h 1 + h 129 + h 257 + h 385)
    else if i = 1 ∨ i = 129 ∨ i = 257 ∨ i = 385 then h i
    else 0)

/-- The impulse sequence of length `n`: `1` at index `pos`, `0` elsewhere. -/
def impulse (n pos : Nat) : List C :=
  (List.range n).map (fun j => if j = pos then 1 else 0)

end Core

/-- The library functions are those of real and complex analysis: `M_PI` is
`π`, `std::cos` the cosine, `std::polar(rho, theta)` is `rho * exp(i theta)`,
`std::abs` the complex modulus, and `(re, im)` the complex number `re + i im`. -/
def MathOps.Standard (ops : MathOps ℝ ℂ) : Prop :=
  ops.pi = Real.pi ∧ (∀ x : ℝ, ops.cos x = Real.cos x) ∧
  (∀ rho theta : ℝ, ops.polar rho theta
    = (rho : ℂ) * Complex.exp ((theta : ℂ) * Complex.I)) ∧
  (∀ z : ℂ, ops.cabs z = Complex.abs z) ∧
  (∀ re im : ℝ, ops.complex re im = ⟨re, im⟩)

/-! The peak-search loop -/

section PeakSearch

variable {K : Type} [LinearOrderedField K]

theorem scanFrom_zero (spectrum : List K) (lo : Int) (st : K × Int) :
    scanFrom spectrum lo 0 st = st := by
  simp [scanFrom]

theorem scanFrom_succ (spectrum : List K) (lo : Int) (n : Nat) (st : K × Int) :
    scanFrom spectrum lo (n + 1) st
      = peakStep spectrum (scanFrom spectrum lo n st) (lo + (n : Int)) := by
  simp [scanFrom, List.range_succ, List.foldl_append]

/-- What the peak-search loop computes: the running maximum never drops below
its initial value, bounds every visited bin, and either nothing exceeded the
initial value (state unchanged) or the state is the first visited bin that
attains the maximum of the visited bins. -/
theorem scanFrom_spec (spectrum : List K) (lo : Int) (n : Nat) (st : K × Int) :
    st.1 ≤ (scanFrom spectrum lo n st).1 ∧
    (∀ j : Nat, j < n → binValue spectrum (lo + j) ≤ (scanFrom spectrum lo n st).1) ∧
    ((scanFrom spectrum lo n st = st ∧ ∀ j : Nat, j < n → binValue spectrum (lo + j) ≤ st.1) ∨
     (∃ j : Nat, j < n ∧ (scanFrom spectrum lo n st).2 = lo + j ∧
        (scanFrom spectrum lo n st).1 = binValue spectrum (lo + j) ∧
        st.1 < (scanFrom spectrum lo n st).1 ∧
        ∀ i : Nat, i < j → binValue spectrum (lo + i) < (scanFrom spectrum lo n st).1)) := by
  induction n with
  | zero =>
    refine ⟨by simp [scanFrom_zero], ?_, Or.inl ⟨scanFrom_zero _ _ _, ?_⟩⟩ <;>
      intro j hj <;> omega
  | succ n ih =>
    obtain ⟨h1, h2, h3⟩ := ih
    rw [scanFrom_succ]
    by_cases hgt : binValue spectrum (lo + n) > (scanFrom spectrum lo n st).1
    · have hstep : peakStep spectrum (scanFrom spectrum lo n st) (lo + (n : Int))
          = (binValue spectrum (lo + n), lo + n) := by
        simp only [peakStep]
        rw [if_pos hgt]
      rw [hstep]
      refine ⟨le_trans h1 (le_of_lt hgt), ?_, Or.inr ⟨n, by omega, rfl, rfl, ?_, ?_⟩⟩
      · intro j hj
        rcases Nat.lt_succ_iff_lt_or_eq.mp hj with hlt | heq
        · exact le_trans (h2 j hlt) (le_of_lt hgt)
        · subst heq; exact le_refl _
      · exact lt_of_le_of_lt h1 hgt
      · intro i hi
        exact lt_of_le_of_lt (h2 i hi) hgt
    · have hstep : peakStep spectrum (scanFrom spectrum lo n st) (lo + (n : Int))
          = scanFrom spectrum lo n st := by
        simp only [peakStep]
        rw [if_neg hgt]
      rw [hstep]
      have hle : binValue spectrum (lo + n) ≤ (scanFrom spectrum lo n st).1 := not_lt.mp hgt
      refine ⟨h1, ?_, ?_⟩
      · intro j hj
        rcases Nat.lt_succ_iff_lt_or_eq.mp hj with hlt | heq
        · exact h2 j hlt
        · subst heq; exact hle
      · rcases h3 with ⟨heq, hall⟩ | ⟨j, hj, hb, hv, hlt, hfirst⟩
        · refine Or.inl ⟨heq, ?_⟩
          intro j hj
          rcases Nat.lt_succ_iff_lt_or_eq.mp hj with hlt | heq2
          · exact hall j hlt
          · subst heq2; rw [heq] at hle; exact hle
        · exact Or.inr ⟨j, by omega, hb, hv, hlt, hfirst⟩

/-- The peak-search loop depends on the spectrum only through the bins it visits. -/
theorem scanFrom_congr (s1 s2 : List K) (lo : Int) (n : Nat) (st : K × Int)
    (h : ∀ j : Nat, j < n → binValue s1 (lo + j) = binValue s2 (lo + j)) :
    scanFrom s1 lo n st = scanFrom s2 lo n st := by
  induction n with
  | zero => rw [scanFrom_zero, scanFrom_zero]
  | succ n ih =>
    rw [scanFrom_succ, scanFrom_succ, ih (fun j hj => h j (by omega))]
    simp only [peakStep, h n (by omega)]

theorem loopRange_foldl (spectrum : List K) (lo hi : Int) (st : K × Int) :
    (loopRange lo hi).foldl (peakStep spectrum) st
      = scanFrom spectrum lo (hi + 1 - lo).toNat st := rfl

/-- The loop `for (i = lo; i <= hi; i++)` of the peak searches, in terms of the
bins `lo <= i <= hi`. -/
theorem scanRange_spec (spectrum : List K) (lo hi : Int) (st : K × Int) :
    st.1 ≤ ((loopRange lo hi).foldl (peakStep spectrum) st).1 ∧
    (∀ i : Int, lo ≤ i → i ≤ hi →
      binValue spectrum i ≤ ((loopRange lo hi).foldl (peakStep spectrum) st).1) ∧
    (((loopRange lo hi).foldl (peakStep spectrum) st = st ∧
        ∀ i : Int, lo ≤ i → i ≤ hi → binValue spectrum i ≤ st.1) ∨
     (lo ≤ ((loopRange lo hi).foldl (peakStep spectrum) st).2 ∧
      ((loopRange lo hi).foldl (peakStep spectrum) st).2 ≤ hi ∧
      ((loopRange lo hi).foldl (peakStep spectrum) st).1
        = binValue spectrum ((loopRange lo hi).foldl (peakStep spectrum) st).2 ∧
      st.1 < ((loopRange lo hi).foldl (peakStep spectrum) st).1 ∧
      ∀ i : Int, lo ≤ i → i < ((loopRange lo hi).foldl (peakStep spectrum) st).2 →
        binValue spectrum i < ((loopRange lo hi).foldl (peakStep spectrum) st).1)) := by
  rw [loopRange_foldl]
  obtain ⟨h1, h2, h3⟩ := scanFrom_spec spectrum lo (hi + 1 - lo).toNat st
  have key : ∀ i : Int, lo ≤ i → i ≤ hi →
      ∃ j : Nat, j < (hi + 1 - lo).toNat ∧ lo + (j : Int) = i := by
    intro i h1 h2
    refine ⟨(i - lo).toNat, by omega, by omega⟩
  refine ⟨h1, ?_, ?_⟩
  · intro i hi1 hi2
    obtain ⟨j, hj, rfl⟩ := key i hi1 hi2
    exact h2 j hj
  · rcases h3 with ⟨heq, hall⟩ | ⟨j, hj, hb, hv, hlt, hfirst⟩
    · refine Or.inl ⟨heq, ?_⟩
      intro i hi1 hi2
      obtain ⟨j, hj, rfl⟩ := key i hi1 hi2
      exact hall j hj
    · refine Or.inr ⟨by omega, by omega, by rw [hv, hb], hlt, ?_⟩
      intro i hi1 hi2
      obtain ⟨j', hj', rfl⟩ := key i hi1 (by omega)
      exact hfirst j' (by omega)

end PeakSearch

/-! Reads and the interpolation -/

section Reads

variable {K : Type}

theorem readAt_outOfBounds (spectrum : List K) (i : Int)
    (h : i < 0 ∨ (spectrum.length : Int) ≤ i) : readAt spectrum i = none := by
  unfold readAt
  split
  · apply List.getElem?_eq_none; omega
  · rfl

theorem sizeMinusOne_pos (spectrum : List K) (h1 : 1 ≤ spectrum.length)
    (h2 : spectrum.length < 2 ^ 64) : sizeMinusOne spectrum = spectrum.length - 1 := by
  unfold sizeMinusOne
  omega

theorem sizeMinusOne_nil : sizeMinusOne ([] : List K) = 2 ^ 64 - 1 := by
  simp [sizeMinusOne]

end Reads

section Interpolation

variable {K : Type} [LinearOrderedField K]

theorem readAt_inBounds (spectrum : List K) (i : Int) (h0 : 0 ≤ i)
    (h1 : i < (spectrum.length : Int)) : readAt spectrum i = some (binValue spectrum i) := by
  have hlt : i.toNat < spectrum.length := by omega
  simp [readAt, binValue, h0, List.getD_eq_getElem?_getD, List.getElem?_eq_getElem hlt]

/-- At either end of a non-empty spectrum `interpolatePeak` returns the bin. -/
theorem interpolatePeak_edge (spectrum : List K) (peak_bin : Int)
    (h1 : 1 ≤ spectrum.length) (h2 : spectrum.length < 2 ^ 64)
    (h : peak_bin ≤ 0 ∨ peak_bin ≥ (spectrum.length : Int) - 1) :
    interpolatePeak spectrum peak_bin = some (peak_bin : K) := by
  have hs := sizeMinusOne_pos spectrum h1 h2
  unfold interpolatePeak
  rw [if_pos]
  rw [hs]
  omega

/-- Strictly inside a spectrum `interpolatePeak` reads the three bins around
`peak_bin` and applies the guard and the parabola. -/
theorem interpolatePeak_interior (spectrum : List K) (peak_bin : Int)
    (h0 : 0 < peak_bin) (h1 : peak_bin < (spectrum.length : Int) - 1)
    (h2 : spectrum.length < 2 ^ 64) :
    interpolatePeak spectrum peak_bin
      = if binValue spectrum (peak_bin - 1) ≤ 0 ∨ binValue spectrum (peak_bin + 1) ≤ 0 ∨
            binValue spectrum peak_bin ≤ binValue spectrum (peak_bin - 1) ∨
            binValue spectrum peak_bin ≤ binValue spectrum (peak_bin + 1)
        then some (peak_bin : K)
        else some ((peak_bin : K) +
          0.5 * (binValue spectrum (peak_bin - 1) - binValue spectrum (peak_bin + 1)) /
            (binValue spectrum (peak_bin - 1) - 2.0 * binValue spectrum peak_bin
              + binValue spectrum (peak_bin + 1))) := by
  have hs := sizeMinusOne_pos spectrum (by omega) h2
  unfold interpolatePeak
  rw [if_neg (by rw [hs]; omega)]
  rw [readAt_inBounds spectrum (peak_bin - 1) (by omega) (by omega),
    readAt_inBounds spectrum peak_bin (by omega) (by omega),
    readAt_inBounds spectrum (peak_bin + 1) (by omega) (by omega)]

/-- On a non-empty spectrum `interpolatePeak` performs no read outside it. -/
theorem interpolatePeak_isSome (spectrum : List K) (peak_bin : Int)
    (h1 : 1 ≤ spectrum.length) (h2 : spectrum.length < 2 ^ 64) :
    ∃ v, interpolatePeak spectrum peak_bin = some v := by
  by_cases h : peak_bin ≤ 0 ∨ peak_bin ≥ (spectrum.length : Int) - 1
  · exact ⟨_, interpolatePeak_edge spectrum peak_bin h1 h2 h⟩
  · rw [interpolatePeak_interior spectrum peak_bin (by omega) (by omega) h2]
    split <;> exact ⟨_, rfl⟩

end Interpolation

/-! The spectrum, the noise floor and the classifier -/

section Spectrum

variable {K C : Type} [LinearOrderedField K] [CommRing C]

theorem magnitudeSpectrum_length (ops : MathOps K C) (signal : List K) :
    (magnitudeSpectrum ops signal).length = 256 := by
  simp [magnitudeSpectrum, FFT_SIZE]

/-- Past the Nyquist guard of harmonic mode the frame rate is positive and the
`n`-th harmonic (`n` = 1, 2, 3) lies below `n * 217.6` bins. -/
theorem guard_facts (config : ScanConfig K) (hrpm : 0 < config.target_rpm)
    (hg : ¬ config.target_rpm / 60.0 ≥ config.actual_fps / 2.0 * 0.85) (m : K) (hm : 0 < m) :
    0 < config.actual_fps ∧
    0 ≤ config.target_rpm / 60.0 * m / (config.actual_fps / (FFT_SIZE : K)) ∧
    config.target_rpm / 60.0 * m / (config.actual_fps / (FFT_SIZE : K)) < m * (1088 / 5) := by
  have hg2 : config.target_rpm / 60 < config.actual_fps / 2 * (85 / 100) := by
    have := not_le.mp hg
    norm_num at this ⊢
    linarith
  have hf : 0 < config.actual_fps := by
    by_contra hneg
    have h1 : config.actual_fps ≤ 0 := not_lt.mp hneg
    have h2 : 0 < config.target_rpm / 60 := by positivity
    nlinarith
  have hfr : 0 < config.actual_fps / (FFT_SIZE : K) := by
    have : (0 : K) < (FFT_SIZE : K) := by norm_num [FFT_SIZE]
    positivity
  refine ⟨hf, ?_, ?_⟩
  · have : 0 ≤ config.target_rpm / 60.0 * m := by
      have : (0:K) < 60.0 := by norm_num
      positivity
    positivity
  · rw [div_lt_iff₀ hfr]
    norm_num [FFT_SIZE]
    nlinarith

theorem foldl_add_eq_sum (l : List K) (a : K) : l.foldl (· + ·) a = a + l.sum := by
  induction l generalizing a with
  | nil => simp
  | cons b l ih => rw [List.foldl_cons, ih, List.sum_cons, add_assoc]

theorem noise_sum_eq (l : List K) : l.foldl (· + ·) 0.0 = l.sum := by
  rw [foldl_add_eq_sum]
  norm_num

theorem noiseFloor_eq_max (s a1 a2 a3 : K) :
    noiseFloor s a1 a2 a3 = max (1 / 10000) ((s - a1 - a2 - a3) / 253) := by
  unfold noiseFloor
  have h253 : (FFT_SIZE : K) / 2.0 - 3 = 253 := by norm_num [FFT_SIZE]
  have h4 : (0.0001 : K) = 1 / 10000 := by norm_num
  simp only [h253, h4]
  split
  · rw [max_eq_left]; assumption
  · rw [max_eq_right]; exact le_of_lt (not_le.mp (by assumption))

theorem classify_fault (r_1x r_2x r_3x : K) :
    (classify r_1x r_2x r_3x).1
      = if r_1x > 5 ∧ r_2x < 3 ∧ r_3x < 3 then FaultType.UNBALANCE
        else if r_2x > r_1x ∧ r_2x > 5 then FaultType.MISALIGNMENT
        else if r_1x > 3 ∧ r_2x > 3 ∧ r_3x > 3 then FaultType.LOOSENESS
        else FaultType.NO_FAULT := by
  have h5 : (5.0 : K) = 5 := by norm_num
  have h3 : (3.0 : K) = 3 := by norm_num
  unfold classify
  rw [h5, h3]
  split_ifs <;> rfl

theorem classify_ne_error (r_1x r_2x r_3x : K) :
    (classify r_1x r_2x r_3x).1 ≠ FaultType.UNMEASURABLE ∧
    (classify r_1x r_2x r_3x).1 ≠ FaultType.INSUFFICIENT_DATA := by
  rw [classify_fault]
  split_ifs <;> exact ⟨by decide, by decide⟩

/-- The result of `findPeakAmplitude` in terms of its search window
`[max(1, e - 2), min(len - 1, e + 2)]`. -/
theorem findPeakAmplitude_spec (spectrum : List K) (e : Int) :
    0 ≤ (findPeakAmplitude spectrum e).1 ∧
    (∀ i : Int, max 1 (e - 2) ≤ i → i ≤ min ((spectrum.length : Int) - 1) (e + 2) →
      binValue spectrum i ≤ (findPeakAmplitude spectrum e).1) ∧
    ((findPeakAmplitude spectrum e = (0, e) ∧
        ∀ i : Int, max 1 (e - 2) ≤ i → i ≤ min ((spectrum.length : Int) - 1) (e + 2) →
          binValue spectrum i ≤ 0) ∨
     (max 1 (e - 2) ≤ (findPeakAmplitude spectrum e).2 ∧
      (findPeakAmplitude spectrum e).2 ≤ min ((spectrum.length : Int) - 1) (e + 2) ∧
      (findPeakAmplitude spectrum e).1 = binValue spectrum (findPeakAmplitude spectrum e).2 ∧
      0 < (findPeakAmplitude spectrum e).1 ∧
      ∀ i : Int, max 1 (e - 2) ≤ i → i < (findPeakAmplitude spectrum e).2 →
        binValue spectrum i < (findPeakAmplitude spectrum e).1)) := by
  have h0 : (0.0 : K) = 0 := by norm_num
  have h := scanRange_spec spectrum (max 1 (e - 2))
    (min ((spectrum.length : Int) - 1) (e + 2)) ((0 : K), e)
  unfold findPeakAmplitude
  rw [h0]
  exact h

theorem blindPeak_spec (spectrum : List K) :
    0 ≤ (blindPeak spectrum).1 ∧
    (∀ i : Int, 1 ≤ i → i ≤ 255 → binValue spectrum i ≤ (blindPeak spectrum).1) ∧
    ((blindPeak spectrum = (0, 1) ∧ ∀ i : Int, 1 ≤ i → i ≤ 255 → binValue spectrum i ≤ 0) ∨
     (1 ≤ (blindPeak spectrum).2 ∧ (blindPeak spectrum).2 ≤ 255 ∧
      (blindPeak spectrum).1 = binValue spectrum (blindPeak spectrum).2 ∧
      0 < (blindPeak spectrum).1 ∧
      ∀ i : Int, 1 ≤ i → i < (blindPeak spectrum).2 →
        binValue spectrum i < (blindPeak spectrum).1)) := by
  have h := scanRange_spec spectrum 1 255 ((0 : K), 1)
  have h255 : (((FFT_SIZE / 2 : Nat) : Int) - 1) = 255 := by norm_num [FFT_SIZE]
  unfold blindPeak
  rw [h255]
  exact h

theorem binValue_nonneg (spectrum : List K) (h : ∀ v ∈ spectrum, 0 ≤ v) (i : Int) :
    0 ≤ binValue spectrum i := by
  unfold binValue
  rw [List.getD_eq_getElem?_getD]
  rcases hq : spectrum[i.toNat]? with _ | v
  · simp
  · simp only [Option.getD_some]
    exact h v (List.getElem?_mem hq)

/-- On a non-negative spectrum the blind-mode loop ends on the lowest bin of
`[1, 256)` that attains the maximum over these bins. -/
theorem blindPeak_max (spectrum : List K) (hnn : ∀ v ∈ spectrum, 0 ≤ v) :
    1 ≤ (blindPeak spectrum).2 ∧ (blindPeak spectrum).2 < 256 ∧
    (blindPeak spectrum).1 = binValue spectrum (blindPeak spectrum).2 ∧
    (∀ i : Int, 1 ≤ i → i < 256 →
      binValue spectrum i ≤ binValue spectrum (blindPeak spectrum).2) ∧
    (∀ i : Int, 1 ≤ i → i < (blindPeak spectrum).2 →
      binValue spectrum i < binValue spectrum (blindPeak spectrum).2) ∧
    ((∀ i : Int, 1 ≤ i → i < 256 → binValue spectrum i = 0) → (blindPeak spectrum).2 = 1) := by
  obtain ⟨-, hmax, hcase⟩ := blindPeak_spec spectrum
  rcases hcase with ⟨heq, hall⟩ | ⟨hb1, hb2, hval, hpos, hfirst⟩
  · have hzero : ∀ i : Int, 1 ≤ i → i ≤ 255 → binValue spectrum i = 0 :=
      fun i h1 h2 => le_antisymm (hall i h1 h2) (binValue_nonneg _ hnn i)
    rw [heq]
    refine ⟨le_refl _, by norm_num, ?_, ?_, ?_, fun _ => rfl⟩
    · exact (hzero 1 (le_refl _) (by norm_num)).symm
    · intro i h1 h2
      rw [hzero 1 (le_refl _) (by norm_num), hzero i h1 (by omega)]
    · intro i h1 h2
      exact absurd h2 (not_lt.mpr h1)
  · refine ⟨hb1, by omega, hval, ?_, ?_, ?_⟩
    · intro i h1 h2
      rw [← hval]
      exact hmax i h1 (by omega)
    · intro i h1 h2
      rw [← hval]
      exact hfirst i h1 h2
    · intro hz
      have h0 := hz _ hb1 (by omega)
      rw [← hval] at h0
      exact absurd h0 (ne_of_gt hpos)

theorem magnitudeSpectrum_nonneg (ops : MathOps K C) (hcabs : ∀ z, 0 ≤ ops.cabs z)
    (signal : List K) : ∀ v ∈ magnitudeSpectrum ops signal, 0 ≤ v := by
  intro v hv
  simp only [magnitudeSpectrum, List.mem_map, List.mem_range] at hv
  obtain ⟨k, -, rfl⟩ := hv
  have : (0 : K) < (FFT_SIZE : K) / 2.0 := by norm_num [FFT_SIZE]
  exact div_nonneg (hcabs _) (le_of_lt this)

theorem magnitudeSpectrum_getD (ops : MathOps K C) (signal : List K) (k : Nat)
    (hk : k < 256) :
    (magnitudeSpectrum ops signal).getD k 0
      = ops.cabs ((computeFFT ops (windowed ops signal)).getD k 0) / 256 := by
  have h256 : (FFT_SIZE : K) / 2.0 = 256 := by norm_num [FFT_SIZE]
  unfold magnitudeSpectrum
  simp only [h256]
  rw [List.getD_eq_getElem?_getD, List.getElem?_map,
    List.getElem?_range (by simpa [FFT_SIZE] using hk)]
  rfl

end Spectrum

/-! The orchestrator -/

theorem toInt32_inRange (z : Int) (h0 : 0 ≤ z) (h1 : z ≤ 1000) : toInt32 z = some z := by
  unfold toInt32
  rw [if_pos]
  constructor <;> omega

section Analysis

variable {K C : Type} [LinearOrderedField K] [FloorRing K] [CommRing C]

theorem cRound_nonneg (x : K) (h0 : 0 ≤ x) : 0 ≤ cRound x := by
  unfold cRound
  rw [if_pos h0]
  apply Int.floor_nonneg.mpr
  linarith

theorem cRound_le (x : K) (n : Int) (h0 : 0 ≤ x) (h : x < (n : K) + 1 / 2) :
    cRound x ≤ n := by
  unfold cRound
  rw [if_pos h0]
  have : ⌊x + 1 / 2⌋ < n + 1 := by
    apply Int.floor_lt.mpr
    push_cast
    linarith
  omega

/-- The three expected harmonic bins are representable past the Nyquist guard:
the 1x bin lies in `[0, 218]`, the 2x bin in `[0, 436]`, the 3x bin in `[0, 653]`. -/
theorem expected_bins (config : ScanConfig K) (hrpm : 0 < config.target_rpm)
    (hg : ¬ config.target_rpm / 60.0 ≥ config.actual_fps / 2.0 * 0.85) :
    (0 ≤ cRound (config.target_rpm / 60.0 / (config.actual_fps / (FFT_SIZE : K))) ∧
      cRound (config.target_rpm / 60.0 / (config.actual_fps / (FFT_SIZE : K))) ≤ 218) ∧
    (0 ≤ cRound (config.target_rpm / 60.0 * 2.0 / (config.actual_fps / (FFT_SIZE : K))) ∧
      cRound (config.target_rpm / 60.0 * 2.0 / (config.actual_fps / (FFT_SIZE : K))) ≤ 436) ∧
    (0 ≤ cRound (config.target_rpm / 60.0 * 3.0 / (config.actual_fps / (FFT_SIZE : K))) ∧
      cRound (config.target_rpm / 60.0 * 3.0 / (config.actual_fps / (FFT_SIZE : K))) ≤ 653) := by
  obtain ⟨-, h1a, h1b⟩ := guard_facts config hrpm hg 1 one_pos
  obtain ⟨-, h2a, h2b⟩ := guard_facts config hrpm hg 2.0 (by norm_num)
  obtain ⟨-, h3a, h3b⟩ := guard_facts config hrpm hg 3.0 (by norm_num)
  rw [mul_one] at h1a h1b
  refine ⟨⟨cRound_nonneg _ h1a, cRound_le _ 218 h1a ?_⟩,
    ⟨cRound_nonneg _ h2a, cRound_le _ 436 h2a ?_⟩,
    ⟨cRound_nonneg _ h3a, cRound_le _ 653 h3a ?_⟩⟩
  · push_cast; linarith
  · push_cast; norm_num at h2b ⊢; linarith
  · push_cast; norm_num at h3b ⊢; linarith

theorem analyze_short (ops : MathOps K C) (raw_signal : List K) (config : ScanConfig K)
    (hlen : raw_signal.length < 512) :
    analyze ops raw_signal config
      = some { fault := FaultType.INSUFFICIENT_DATA
               dominant_frequency := none
               peak_amplitude := none
               confidence := none
               message := "Need at least " ++ toString FFT_SIZE ++ " frames."
               spectrum := List.replicate (FFT_SIZE / 2) 0.0 } := by
  unfold analyze
  rw [if_pos (by simpa [FFT_SIZE] using hlen)]

theorem analyze_blind (ops : MathOps K C) (raw_signal : List K) (config : ScanConfig K)
    (hlen : 512 ≤ raw_signal.length) (hrpm : config.target_rpm ≤ 0) :
    ∃ exact_bin,
      interpolatePeak (magnitudeSpectrum ops (raw_signal.drop (raw_signal.length - FFT_SIZE)))
        (blindPeak (magnitudeSpectrum ops
          (raw_signal.drop (raw_signal.length - FFT_SIZE)))).2 = some exact_bin ∧
      analyze ops raw_signal config
        = some { fault := FaultType.NO_FAULT
                 dominant_frequency :=
                   some (exact_bin * (config.actual_fps / (FFT_SIZE : K)))
                 peak_amplitude := some (blindPeak (magnitudeSpectrum ops
                   (raw_signal.drop (raw_signal.length - FFT_SIZE)))).1
                 confidence := none
                 message := "Self-Test / Blind Scan Complete"
                 spectrum := magnitudeSpectrum ops
                   (raw_signal.drop (raw_signal.length - FFT_SIZE)) } := by
  obtain ⟨v, hv⟩ := interpolatePeak_isSome
    (magnitudeSpectrum ops (raw_signal.drop (raw_signal.length - FFT_SIZE)))
    (blindPeak (magnitudeSpectrum ops (raw_signal.drop (raw_signal.length - FFT_SIZE)))).2
    (by rw [magnitudeSpectrum_length]; norm_num) (by rw [magnitudeSpectrum_length]; norm_num)
  refine ⟨v, hv, ?_⟩
  unfold analyze
  rw [if_neg (by simp only [FFT_SIZE]; omega)]
  simp only [if_pos hrpm, hv, Option.map_some']

theorem analyze_unmeasurable (ops : MathOps K C) (raw_signal : List K)
    (config : ScanConfig K) (hlen : 512 ≤ raw_signal.length) (hrpm : 0 < config.target_rpm)
    (hg : config.target_rpm / 60.0 ≥ config.actual_fps / 2.0 * 0.85) :
    analyze ops raw_signal config
      = some { fault := FaultType.UNMEASURABLE
               dominant_frequency := none
               peak_amplitude := none
               confidence := none
               message := "RPM exceeds Nyquist safety limit. Increase FPS."
               spectrum := magnitudeSpectrum ops
                 (raw_signal.drop (raw_signal.length - FFT_SIZE)) } := by
  unfold analyze
  rw [if_neg (by simp only [FFT_SIZE]; omega)]
  simp only [if_neg (not_le.mpr hrpm), if_pos hg]

theorem analyze_harmonic (ops : MathOps K C) (raw_signal : List K)
    (config : ScanConfig K) (hlen : 512 ≤ raw_signal.length) (hrpm : 0 < config.target_rpm)
    (hg : ¬ config.target_rpm / 60.0 ≥ config.actual_fps / 2.0 * 0.85)
    (spectrum : List K)
    (hspec : spectrum = magnitudeSpectrum ops (raw_signal.drop (raw_signal.length - FFT_SIZE)))
    (b1 b2 b3 : Int)
    (hb1 : b1 = cRound (config.target_rpm / 60.0 / (config.actual_fps / (FFT_SIZE : K))))
    (hb2 : b2 = cRound (config.target_rpm / 60.0 * 2.0 / (config.actual_fps / (FFT_SIZE : K))))
    (hb3 : b3 = cRound (config.target_rpm / 60.0 * 3.0 / (config.actual_fps / (FFT_SIZE : K))))
    (nf : K)
    (hnf : nf = noiseFloor (spectrum.foldl (· + ·) 0.0) (findPeakAmplitude spectrum b1).1
      (findPeakAmplitude spectrum b2).1 (findPeakAmplitude spectrum b3).1) :
    ∃ exact_bin,
      interpolatePeak spectrum (findPeakAmplitude spectrum b1).2 = some exact_bin ∧
      analyze ops raw_signal config
        = some { fault := (classify ((findPeakAmplitude spectrum b1).1 / nf)
                   ((findPeakAmplitude spectrum b2).1 / nf)
                   ((findPeakAmplitude spectrum b3).1 / nf)).1
                 dominant_frequency :=
                   some (exact_bin * (config.actual_fps / (FFT_SIZE : K)))
                 peak_amplitude := some (findPeakAmplitude spectrum b1).1
                 confidence := none
                 message := (classify ((findPeakAmplitude spectrum b1).1 / nf)
                   ((findPeakAmplitude spectrum b2).1 / nf)
                   ((findPeakAmplitude spectrum b3).1 / nf)).2
                 spectrum := spectrum } := by
  obtain ⟨⟨h1a, h1b⟩, ⟨h2a, h2b⟩, ⟨h3a, h3b⟩⟩ := expected_bins config hrpm hg
  obtain ⟨v, hv⟩ := interpolatePeak_isSome spectrum (findPeakAmplitude spectrum b1).2
    (by rw [hspec, magnitudeSpectrum_length]; norm_num)
    (by rw [hspec, magnitudeSpectrum_length]; norm_num)
  refine ⟨v, hv, ?_⟩
  unfold analyze
  rw [if_neg (by simp only [FFT_SIZE]; omega)]
  simp only [if_neg (not_le.mpr hrpm), if_neg hg]
  rw [toInt32_inRange _ h1a (by omega), toInt32_inRange _ h2a (by omega),
    toInt32_inRange _ h3a (by omega)]
  simp only [Option.some_bind]
  subst hb1 hb2 hb3 hspec
  rw [hv, ← hnf]
  rfl

end Analysis

/-! The FFT -/

section Transform

variable {K C : Type} [LinearOrderedField K] [CommRing C]

theorem getD_map_range (f : Nat → C) (n k : Nat) (hk : k < n) :
    ((List.range n).map f).getD k 0 = f k := by
  rw [List.getD_eq_getElem?_getD, List.getElem?_map, List.getElem?_range hk]
  rfl

theorem butterfly_length (ops : MathOps K C) (n : Nat) (x even odd : List C)
    (hn : x.length = n) : (butterfly ops n x even odd).length = n := by
  simp only [butterfly, List.length_append, List.length_map, List.length_range,
    List.length_drop]
  omega

/-- The transform keeps the length of its argument. -/
theorem computeFFT_length (ops : MathOps K C) (x : List C) :
    (computeFFT ops x).length = x.length := by
  rw [computeFFT]
  split
  · rfl
  · exact butterfly_length ops _ x _ _ rfl

theorem butterfly_low (ops : MathOps K C) (n : Nat) (x even odd : List C) (k : Nat)
    (hk : k < n / 2) :
    (butterfly ops n x even odd).getD k 0
      = even.getD k 0 + ops.polar 1.0 (-2.0 * ops.pi * (k : K) / (n : K)) * odd.getD k 0 := by
  unfold butterfly
  rw [List.append_assoc, List.getD_append _ _ _ _ (by simpa using hk)]
  exact getD_map_range _ _ _ hk

theorem butterfly_high (ops : MathOps K C) (n : Nat) (x even odd : List C) (k : Nat)
    (hk : k < n / 2) :
    (butterfly ops n x even odd).getD (k + n / 2) 0
      = even.getD k 0 - ops.polar 1.0 (-2.0 * ops.pi * (k : K) / (n : K)) * odd.getD k 0 := by
  unfold butterfly
  rw [List.append_assoc, List.getD_append_right _ _ _ _ (by simp),
    List.getD_append _ _ _ _ (by simpa using hk)]
  simp only [List.length_map, List.length_range, Nat.add_sub_cancel]
  exact getD_map_range _ _ _ hk

theorem sum_range_even_odd (f : Nat → C) (h : Nat) :
    ∑ j in Finset.range (2 * h), f j
      = ∑ j in Finset.range h, f (2 * j) + ∑ j in Finset.range h, f (2 * j + 1) := by
  induction h with
  | zero => simp
  | succ h ih =>
    rw [show 2 * (h + 1) = 2 * h + 1 + 1 by ring, Finset.sum_range_succ,
      Finset.sum_range_succ, ih, Finset.sum_range_succ, Finset.sum_range_succ]
    ring

/-- The radix-2 recursion computes the transform with kernel `w n a` (the
`a`-th power of the `n`-th root of unity) as soon as the twiddle factor of the
source is `w n k` and `w` has the four root-of-unity laws used below. -/
theorem computeFFT_kernel (ops : MathOps K C) (w : Nat → Nat → C)
    (htw : ∀ n k : Nat, ops.polar 1.0 (-2.0 * ops.pi * (k : K) / (n : K)) = w n k)
    (hadd : ∀ n a b, w n (a + b) = w n a * w n b)
    (hhalf : ∀ n a, 0 < n → w (2 * n) (2 * a) = w n a)
    (hneg : ∀ n, 0 < n → w (2 * n) n = -1)
    (hone : ∀ n a, w n (n * a) = 1)
    (m : Nat) : ∀ x : List C, x.length = 2 ^ m → ∀ k, k < 2 ^ m →
      (computeFFT ops x).getD k 0
        = ∑ j in Finset.range (2 ^ m), x.getD j 0 * w (2 ^ m) (j * k) := by
  induction m with
  | zero =>
    intro x hx k hk
    have hk0 : k = 0 := by simpa using hk
    subst hk0
    rw [computeFFT, dif_pos (by rw [hx]; norm_num)]
    have h1 := hone 1 0
    rw [Nat.mul_zero] at h1
    simp [h1]
  | succ m ih =>
    intro x hx k hk
    have hpos : 0 < 2 ^ m := Nat.two_pow_pos m
    have hn : 2 ^ (m + 1) = 2 * 2 ^ m := pow_succ' 2 m
    have hhalf2 : x.length / 2 = 2 ^ m := by rw [hx, hn]; omega
    rw [computeFFT, dif_neg (by rw [hx, hn]; omega)]
    simp only [hhalf2]
    have hE := ih ((List.range (2 ^ m)).map (fun i => x.getD (i * 2) 0)) (by simp)
    have hO := ih ((List.range (2 ^ m)).map (fun i => x.getD (i * 2 + 1) 0)) (by simp)
    have hsumE : ∀ k, ∑ j in Finset.range (2 ^ m),
        ((List.range (2 ^ m)).map (fun i => x.getD (i * 2) 0)).getD j 0 * w (2 ^ m) (j * k)
        = ∑ j in Finset.range (2 ^ m), x.getD (2 * j) 0 * w (2 ^ m) (j * k) := by
      intro k
      apply Finset.sum_congr rfl
      intro j hj
      rw [getD_map_range _ _ _ (Finset.mem_range.mp hj), Nat.mul_comm]
    have hsumO : ∀ k, ∑ j in Finset.range (2 ^ m),
        ((List.range (2 ^ m)).map (fun i => x.getD (i * 2 + 1) 0)).getD j 0
          * w (2 ^ m) (j * k)
        = ∑ j in Finset.range (2 ^ m), x.getD (2 * j + 1) 0 * w (2 ^ m) (j * k) := by
      intro k
      apply Finset.sum_congr rfl
      intro j hj
      rw [getD_map_range _ _ _ (Finset.mem_range.mp hj), Nat.mul_comm]
    rw [hn, sum_range_even_odd]
    by_cases hlow : k < 2 ^ m
    · rw [hx, butterfly_low ops _ x _ _ k (by rw [hn]; omega), hE k hlow, hO k hlow,
        hsumE, hsumO, htw, Finset.mul_sum]
      congr 1
      · apply Finset.sum_congr rfl
        intro j _
        rw [show 2 * j * k = 2 * (j * k) by ring, hhalf _ _ hpos]
      · apply Finset.sum_congr rfl
        intro j _
        rw [show (2 * j + 1) * k = 2 * (j * k) + k by ring, hadd, hhalf _ _ hpos, ← hn]
        ring
    · obtain ⟨k', rfl⟩ : ∃ k', k = k' + 2 ^ m := ⟨k - 2 ^ m, by omega⟩
      have hk' : k' < 2 ^ m := by omega
      have hidx : k' + 2 ^ m = k' + 2 ^ (m + 1) / 2 := by rw [hn]; omega
      rw [hx]
      conv_lhs => rw [hidx]
      rw [butterfly_high ops _ x _ _ k' (by rw [hn]; omega), hE k' hk', hO k' hk',
        hsumE, hsumO, htw, sub_eq_add_neg, Finset.mul_sum, ← Finset.sum_neg_distrib]
      congr 1
      · apply Finset.sum_congr rfl
        intro j _
        rw [show 2 * j * (k' + 2 ^ m) = 2 * (j * k' + 2 ^ m * j) by ring,
          hhalf _ _ hpos, hadd, hone, mul_one]
      · apply Finset.sum_congr rfl
        intro j _
        rw [show (2 * j + 1) * (k' + 2 ^ m) = 2 * (j * k' + 2 ^ m * j) + k' + 2 ^ m by ring,
          hadd, hadd, hhalf _ _ hpos, hadd, hone, hneg _ hpos, ← hn]
        ring

end Transform

/-! The FFT over the complex numbers -/

section ComplexTransform

open Complex

theorem kernel_add (n a b : Nat) :
    Complex.exp (-2 * Real.pi * Complex.I * ((a + b : Nat) : ℂ) / (n : ℂ))
      = Complex.exp (-2 * Real.pi * Complex.I * (a : ℂ) / (n : ℂ))
        * Complex.exp (-2 * Real.pi * Complex.I * (b : ℂ) / (n : ℂ)) := by
  rw [← Complex.exp_add]
  congr 1
  push_cast
  ring

theorem kernel_half (n a : Nat) (hn : 0 < n) :
    Complex.exp (-2 * Real.pi * Complex.I * ((2 * a : Nat) : ℂ) / ((2 * n : Nat) : ℂ))
      = Complex.exp (-2 * Real.pi * Complex.I * (a : ℂ) / (n : ℂ)) := by
  congr 1
  have : (n : ℂ) ≠ 0 := by exact_mod_cast hn.ne'
  push_cast
  field_simp
  ring

theorem kernel_neg (n : Nat) (hn : 0 < n) :
    Complex.exp (-2 * Real.pi * Complex.I * (n : ℂ) / ((2 * n : Nat) : ℂ)) = -1 := by
  have h0 : (n : ℂ) ≠ 0 := by exact_mod_cast hn.ne'
  have : -2 * Real.pi * Complex.I * (n : ℂ) / ((2 * n : Nat) : ℂ)
      = -(Real.pi * Complex.I) := by
    push_cast
    field_simp
    ring
  rw [this, Complex.exp_neg, Complex.exp_pi_mul_I]
  norm_num

theorem kernel_one (n a : Nat) :
    Complex.exp (-2 * Real.pi * Complex.I * ((n * a : Nat) : ℂ) / (n : ℂ)) = 1 := by
  rcases Nat.eq_zero_or_pos n with h | h
  · subst h; simp
  · have h0 : (n : ℂ) ≠ 0 := by exact_mod_cast h.ne'
    have : -2 * Real.pi * Complex.I * ((n * a : Nat) : ℂ) / (n : ℂ)
        = ((-(a : Int) : Int) : ℂ) * (2 * Real.pi * Complex.I) := by
      push_cast
      field_simp
      ring
    rw [this, Complex.exp_int_mul_two_pi_mul_I]

theorem kernel_abs (n a : Nat) :
    Complex.abs (Complex.exp (-2 * Real.pi * Complex.I * (a : ℂ) / (n : ℂ))) = 1 := by
  have : -2 * Real.pi * Complex.I * (a : ℂ) / (n : ℂ)
      = ((-2 * Real.pi * (a : ℝ) / (n : ℝ) : ℝ) : ℂ) * Complex.I := by
    push_cast
    ring
  rw [this, Complex.abs_exp_ofReal_mul_I]

/-- The twiddle factor of the source, `std::polar(1.0, -2.0 * M_PI * k / n)`,
is `exp(-2 pi i k / n)` when `M_PI` and `std::polar` are those of analysis. -/
theorem twiddle_eq (ops : MathOps ℝ ℂ) (hpi : ops.pi = Real.pi)
    (hpolar : ∀ rho theta : ℝ, ops.polar rho theta
      = (rho : ℂ) * Complex.exp ((theta : ℂ) * Complex.I)) (n k : Nat) :
    ops.polar 1.0 (-2.0 * ops.pi * (k : ℝ) / (n : ℝ))
      = Complex.exp (-2 * Real.pi * Complex.I * (k : ℂ) / (n : ℂ)) := by
  rw [hpolar, hpi]
  have h1 : ((1.0 : ℝ) : ℂ) = 1 := by norm_num
  rw [h1, one_mul]
  congr 1
  push_cast
  norm_num
  ring

/-- The transform of the source over `ℂ`, for a length that is a power of two. -/
theorem computeFFT_complex (ops : MathOps ℝ ℂ) (hpi : ops.pi = Real.pi)
    (hpolar : ∀ rho theta : ℝ, ops.polar rho theta
      = (rho : ℂ) * Complex.exp ((theta : ℂ) * Complex.I))
    (m : Nat) (x : List ℂ) (hx : x.length = 2 ^ m) (k : Nat) (hk : k < 2 ^ m) :
    (computeFFT ops x).getD k 0
      = ∑ j in Finset.range (2 ^ m), x.getD j 0 *
          Complex.exp (-2 * Real.pi * Complex.I * ((j * k : Nat) : ℂ) / ((2 ^ m : Nat) : ℂ)) :=
  computeFFT_kernel ops
    (fun n a => Complex.exp (-2 * Real.pi * Complex.I * (a : ℂ) / (n : ℂ)))
    (twiddle_eq ops hpi hpolar) kernel_add kernel_half kernel_neg kernel_one m x hx k hk

end ComplexTransform

/-! The claims -/

section Claims

variable {K C : Type} [LinearOrderedField K] [FloorRing K] [CommRing C]

/-- C1: a buffer of fewer than 512 samples gives the fault `INSUFFICIENT_DATA`
with a spectrum of exactly 256 entries, all zero, whatever the config; a buffer
of at least 512 samples gives a result whose fault is not `INSUFFICIENT_DATA`. -/
theorem analyze_insufficient_data (ops : MathOps K C) (raw_signal : List K)
    (config : ScanConfig K) :
    (raw_signal.length < 512 →
      ∃ r, analyze ops raw_signal config = some r ∧
        r.fault = FaultType.INSUFFICIENT_DATA ∧
        r.spectrum.length = 256 ∧ ∀ v ∈ r.spectrum, v = 0) ∧
    (512 ≤ raw_signal.length →
      ∃ r, analyze ops raw_signal config = some r ∧
        r.fault ≠ FaultType.INSUFFICIENT_DATA) := by
  constructor
  · intro hlen
    refine ⟨_, analyze_short ops raw_signal config hlen, rfl, List.length_replicate _ _, ?_⟩
    intro v hv
    have := List.eq_of_mem_replicate hv
    rw [this]
    norm_num
  · intro hlen
    by_cases hrpm : config.target_rpm ≤ 0
    · obtain ⟨e, -, he⟩ := analyze_blind ops raw_signal config hlen hrpm
      exact ⟨_, he, by simp⟩
    · by_cases hg : config.target_rpm / 60.0 ≥ config.actual_fps / 2.0 * 0.85
      · exact ⟨_, analyze_unmeasurable ops raw_signal config hlen (not_le.mp hrpm) hg,
          by simp⟩
      · obtain ⟨e, -, he⟩ := analyze_harmonic ops raw_signal config hlen (not_le.mp hrpm) hg
          _ rfl _ _ _ rfl rfl rfl _ rfl
        exact ⟨_, he, (classify_ne_error _ _ _).2⟩

/-- C2: on a buffer of at least 512 samples `analyze` returns a result; when
`target_rpm > 0` its fault is `UNMEASURABLE` exactly when
`target_rpm / 60 >= 0.85 * (actual_fps / 2)`, whatever the samples, and when
`target_rpm <= 0` its fault is not `UNMEASURABLE`. -/
theorem analyze_unmeasurable_iff (ops : MathOps K C) (raw_signal : List K)
    (config : ScanConfig K) (hlen : 512 ≤ raw_signal.length) :
    ∃ r, analyze ops raw_signal config = some r ∧
      (0 < config.target_rpm →
        (r.fault = FaultType.UNMEASURABLE ↔
          config.target_rpm / 60 ≥ 0.85 * (config.actual_fps / 2))) ∧
      (config.target_rpm ≤ 0 → r.fault ≠ FaultType.UNMEASURABLE) := by
  have hcond : config.target_rpm / 60 ≥ 0.85 * (config.actual_fps / 2) ↔
      config.target_rpm / 60.0 ≥ config.actual_fps / 2.0 * 0.85 := by
    have h60 : (60.0 : K) = 60 := by norm_num
    have h2 : (2.0 : K) = 2 := by norm_num
    rw [h60, h2, mul_comm]
  by_cases hrpm : config.target_rpm ≤ 0
  · obtain ⟨e, -, he⟩ := analyze_blind ops raw_signal config hlen hrpm
    refine ⟨_, he, ?_, fun _ => by simp⟩
    intro hpos
    exact absurd hrpm (not_le.mpr hpos)
  · by_cases hg : config.target_rpm / 60.0 ≥ config.actual_fps / 2.0 * 0.85
    · refine ⟨_, analyze_unmeasurable ops raw_signal config hlen (not_le.mp hrpm) hg,
        fun _ => ⟨fun _ => hcond.mpr hg, fun _ => rfl⟩, fun h => absurd h hrpm⟩
    · obtain ⟨e, -, he⟩ := analyze_harmonic ops raw_signal config hlen (not_le.mp hrpm) hg
        _ rfl _ _ _ rfl rfl rfl _ rfl
      refine ⟨_, he, fun _ => ⟨fun h => ?_, fun h => ?_⟩, fun h => absurd h hrpm⟩
      · exact absurd h (classify_ne_error _ _ _).1
      · exact absurd (hcond.mp h) hg

/-- C3: for every buffer and config the spectrum of the result has exactly 256
entries, each non-negative, given that the complex magnitude `std::abs` is
non-negative: it is zero-filled when fewer than 512 samples are supplied, and
otherwise entry `k` is `|X[k]| / 256` for the transform `X` of the windowed last
512 samples. -/
theorem analyze_spectrum_shape (ops : MathOps K C) (hcabs : ∀ z, 0 ≤ ops.cabs z)
    (raw_signal : List K) (config : ScanConfig K) :
    ∃ r, analyze ops raw_signal config = some r ∧
      r.spectrum.length = 256 ∧ (∀ v ∈ r.spectrum, 0 ≤ v) ∧
      (raw_signal.length < 512 → r.spectrum = List.replicate 256 0) ∧
      (512 ≤ raw_signal.length → ∀ k, k < 256 →
        r.spectrum.getD k 0
          = ops.cabs ((computeFFT ops
              (windowed ops (raw_signal.drop (raw_signal.length - 512)))).getD k 0) / 256) := by
  by_cases hlen : raw_signal.length < 512
  · refine ⟨_, analyze_short ops raw_signal config hlen, List.length_replicate _ _, ?_, ?_,
      fun h => absurd hlen (not_lt.mpr h)⟩
    · intro v hv
      have := List.eq_of_mem_replicate hv
      rw [this]
      norm_num
    · intro _
      have h0 : (0.0 : K) = 0 := by norm_num
      simp only [FFT_SIZE, h0]
  · have hlen2 : 512 ≤ raw_signal.length := not_lt.mp hlen
    have hshape : ∀ r : DSPResult K,
        r.spectrum = magnitudeSpectrum ops (raw_signal.drop (raw_signal.length - FFT_SIZE)) →
        r.spectrum.length = 256 ∧ (∀ v ∈ r.spectrum, 0 ≤ v) ∧
        (raw_signal.length < 512 → r.spectrum = List.replicate 256 0) ∧
        (512 ≤ raw_signal.length → ∀ k, k < 256 →
          r.spectrum.getD k 0
            = ops.cabs ((computeFFT ops
                (windowed ops (raw_signal.drop (raw_signal.length - 512)))).getD k 0)
              / 256) := by
      intro r hr
      rw [hr]
      exact ⟨magnitudeSpectrum_length _ _, magnitudeSpectrum_nonneg ops hcabs _,
        fun h => absurd h hlen, fun _ k hk => magnitudeSpectrum_getD ops _ k hk⟩
    by_cases hrpm : config.target_rpm ≤ 0
    · obtain ⟨e, -, he⟩ := analyze_blind ops raw_signal config hlen2 hrpm
      exact ⟨_, he, hshape _ rfl⟩
    · by_cases hg : config.target_rpm / 60.0 ≥ config.actual_fps / 2.0 * 0.85
      · exact ⟨_, analyze_unmeasurable ops raw_signal config hlen2 (not_le.mp hrpm) hg,
          hshape _ rfl⟩
      · obtain ⟨e, -, he⟩ := analyze_harmonic ops raw_signal config hlen2 (not_le.mp hrpm) hg
          _ rfl _ _ _ rfl rfl rfl _ rfl
        exact ⟨_, he, hshape _ rfl⟩

end Claims

section LocatorClaims

variable {K : Type} [LinearOrderedField K]

/-- C4: the classifier applies its rules in order, the first match winning:
`UNBALANCE` if `r_1x > 5`, `r_2x < 3` and `r_3x < 3`; else `MISALIGNMENT` if
`r_2x > r_1x` and `r_2x > 5`; else `LOOSENESS` if all three ratios exceed `3`;
else `NO_FAULT`.  The triples (10,1,1), (1,10,1), (4,4,4) and (1,1,1) give
`UNBALANCE`, `MISALIGNMENT`, `LOOSENESS` and `NO_FAULT`. -/
theorem classify_ordered_rules (r_1x r_2x r_3x : K) :
    (classify r_1x r_2x r_3x).1
      = (if r_1x > 5 ∧ r_2x < 3 ∧ r_3x < 3 then FaultType.UNBALANCE
         else if r_2x > r_1x ∧ r_2x > 5 then FaultType.MISALIGNMENT
         else if r_1x > 3 ∧ r_2x > 3 ∧ r_3x > 3 then FaultType.LOOSENESS
         else FaultType.NO_FAULT) ∧
    (classify (10 : K) 1 1).1 = FaultType.UNBALANCE ∧
    (classify (1 : K) 10 1).1 = FaultType.MISALIGNMENT ∧
    (classify (4 : K) 4 4).1 = FaultType.LOOSENESS ∧
    (classify (1 : K) 1 1).1 = FaultType.NO_FAULT := by
  refine ⟨classify_fault _ _ _, ?_, ?_, ?_, ?_⟩ <;> rw [classify_fault] <;> norm_num

end LocatorClaims

section BlindClaims

variable {K C : Type} [LinearOrderedField K] [FloorRing K] [CommRing C]

/-- C5: on a buffer of at least 512 samples with `target_rpm <= 0` (and a
non-negative complex magnitude) `analyze` returns fault `NO_FAULT` with the
message "Self-Test / Blind Scan Complete"; `peak_amplitude` is the maximum of
the spectrum over the bins `1 <= i < 256`, and `dominant_frequency` is
`interpolatePeak(spectrum, b) * actual_fps / 512` for the lowest bin `b` in
`[1, 256)` that attains this maximum (`b = 1` when all these bins are zero). -/
theorem analyze_blind_mode (ops : MathOps K C) (hcabs : ∀ z, 0 ≤ ops.cabs z)
    (raw_signal : List K) (config : ScanConfig K) (hlen : 512 ≤ raw_signal.length)
    (hrpm : config.target_rpm ≤ 0) :
    ∃ (r : DSPResult K) (b : Int) (e : K),
      analyze ops raw_signal config = some r ∧
      r.fault = FaultType.NO_FAULT ∧
      r.message = "Self-Test / Blind Scan Complete" ∧
      1 ≤ b ∧ b < 256 ∧
      r.peak_amplitude = some (binValue r.spectrum b) ∧
      (∀ i : Int, 1 ≤ i → i < 256 → binValue r.spectrum i ≤ binValue r.spectrum b) ∧
      (∀ i : Int, 1 ≤ i → i < b → binValue r.spectrum i < binValue r.spectrum b) ∧
      ((∀ i : Int, 1 ≤ i → i < 256 → binValue r.spectrum i = 0) → b = 1) ∧
      interpolatePeak r.spectrum b = some e ∧
      r.dominant_frequency = some (e * config.actual_fps / 512) := by
  obtain ⟨e, hint, he⟩ := analyze_blind ops raw_signal config hlen hrpm
  have hfreq : e * (config.actual_fps / (FFT_SIZE : K)) = e * config.actual_fps / 512 := by
    norm_num [FFT_SIZE, mul_div_assoc]
  obtain ⟨h1, h2, h3, h4, h5, h6⟩ := blindPeak_max _ (magnitudeSpectrum_nonneg ops hcabs
    (raw_signal.drop (raw_signal.length - FFT_SIZE)))
  refine ⟨_, (blindPeak (magnitudeSpectrum ops
    (raw_signal.drop (raw_signal.length - FFT_SIZE)))).2, e, he, rfl, rfl, h1, h2, ?_,
    h4, h5, h6, hint, ?_⟩
  · show some _ = some _
    rw [h3]
  · show some _ = some _
    rw [hfreq]

end BlindClaims

section PeakClaims

variable {K : Type} [LinearOrderedField K]

/-- C6: for every spectrum the method is handed and every `peak_bin`,
`interpolatePeak` returns `peak_bin` unchanged when `peak_bin <= 0` or
`peak_bin >= len - 1`, or when `beta <= alpha` or `beta <= gamma`, or when
`alpha <= 0` or `gamma <= 0` (the amplitudes at `peak_bin - 1`, `peak_bin`,
`peak_bin + 1`); in every other case it returns
`peak_bin + 0.5 * (alpha - gamma) / (alpha - 2 * beta + gamma)`.  A triple with
`beta = gamma` returns the bin unchanged.  The method is private and `analyze`
hands it the 256-bin spectrum only; the proof uses no more of that than a
vector with at least one entry. -/
theorem interpolatePeak_contract (spectrum : List K) (peak_bin : Int)
    (hne : 1 ≤ spectrum.length) (hsize : spectrum.length < 2 ^ 64) :
    ((peak_bin ≤ 0 ∨ peak_bin ≥ (spectrum.length : Int) - 1) →
      interpolatePeak spectrum peak_bin = some (peak_bin : K)) ∧
    (0 < peak_bin → peak_bin < (spectrum.length : Int) - 1 →
      (binValue spectrum peak_bin ≤ binValue spectrum (peak_bin - 1) ∨
       binValue spectrum peak_bin ≤ binValue spectrum (peak_bin + 1) ∨
       binValue spectrum (peak_bin - 1) ≤ 0 ∨ binValue spectrum (peak_bin + 1) ≤ 0) →
      interpolatePeak spectrum peak_bin = some (peak_bin : K)) ∧
    (0 < peak_bin → peak_bin < (spectrum.length : Int) - 1 →
      ¬ (binValue spectrum peak_bin ≤ binValue spectrum (peak_bin - 1) ∨
         binValue spectrum peak_bin ≤ binValue spectrum (peak_bin + 1) ∨
         binValue spectrum (peak_bin - 1) ≤ 0 ∨ binValue spectrum (peak_bin + 1) ≤ 0) →
      interpolatePeak spectrum peak_bin
        = some ((peak_bin : K) +
            0.5 * (binValue spectrum (peak_bin - 1) - binValue spectrum (peak_bin + 1)) /
              (binValue spectrum (peak_bin - 1) - 2 * binValue spectrum peak_bin
                + binValue spectrum (peak_bin + 1)))) ∧
    (binValue spectrum peak_bin = binValue spectrum (peak_bin + 1) →
      interpolatePeak spectrum peak_bin = some (peak_bin : K)) := by
  have h2 : (2.0 : K) = 2 := by norm_num
  refine ⟨interpolatePeak_edge spectrum peak_bin hne hsize, ?_, ?_, ?_⟩
  · intro h0 h1 hguard
    rw [interpolatePeak_interior spectrum peak_bin h0 h1 hsize, if_pos]
    tauto
  · intro h0 h1 hguard
    rw [interpolatePeak_interior spectrum peak_bin h0 h1 hsize, if_neg, h2]
    tauto
  · intro hflat
    by_cases hedge : peak_bin ≤ 0 ∨ peak_bin ≥ (spectrum.length : Int) - 1
    · exact interpolatePeak_edge spectrum peak_bin hne hsize hedge
    · rw [interpolatePeak_interior spectrum peak_bin (by omega) (by omega) hsize, if_pos]
      exact Or.inr (Or.inr (Or.inr (le_of_eq hflat)))

/-- C7 (amended: the window ends at `len - 1`, not `len - 2`): for every
spectrum of length `len` and every `expected_bin`, `findPeakAmplitude` searches
exactly the bins of `[max(1, expected_bin - 2), min(len - 1, expected_bin + 2)]`:
it returns the index and amplitude of the maximum value found there, and
`expected_bin` with amplitude 0 if no value there exceeds 0; bins outside the
window do not affect the result. -/
theorem findPeakAmplitude_window (spectrum : List K) (expected_bin : Int) :
    ((∀ i : Int, max 1 (expected_bin - 2) ≤ i →
        i ≤ min ((spectrum.length : Int) - 1) (expected_bin + 2) →
        binValue spectrum i ≤ 0) →
      findPeakAmplitude spectrum expected_bin = (0, expected_bin)) ∧
    ((∃ i : Int, max 1 (expected_bin - 2) ≤ i ∧
        i ≤ min ((spectrum.length : Int) - 1) (expected_bin + 2) ∧
        0 < binValue spectrum i) →
      max 1 (expected_bin - 2) ≤ (findPeakAmplitude spectrum expected_bin).2 ∧
      (findPeakAmplitude spectrum expected_bin).2
        ≤ min ((spectrum.length : Int) - 1) (expected_bin + 2) ∧
      (findPeakAmplitude spectrum expected_bin).1
        = binValue spectrum (findPeakAmplitude spectrum expected_bin).2 ∧
      ∀ i : Int, max 1 (expected_bin - 2) ≤ i →
        i ≤ min ((spectrum.length : Int) - 1) (expected_bin + 2) →
        binValue spectrum i ≤ (findPeakAmplitude spectrum expected_bin).1) ∧
    (∀ other : List K, other.length = spectrum.length →
      (∀ i : Int, max 1 (expected_bin - 2) ≤ i →
        i ≤ min ((spectrum.length : Int) - 1) (expected_bin + 2) →
        binValue other i = binValue spectrum i) →
      findPeakAmplitude other expected_bin = findPeakAmplitude spectrum expected_bin) := by
  obtain ⟨-, hmax, hcase⟩ := findPeakAmplitude_spec spectrum expected_bin
  refine ⟨?_, ?_, ?_⟩
  · intro hall
    rcases hcase with ⟨heq, -⟩ | ⟨hb1, hb2, hval, hpos, -⟩
    · exact heq
    · have := hall _ hb1 hb2
      rw [← hval] at this
      exact absurd hpos (not_lt.mpr this)
  · rintro ⟨i, hi1, hi2, hipos⟩
    rcases hcase with ⟨-, hall⟩ | ⟨hb1, hb2, hval, -, -⟩
    · exact absurd hipos (not_lt.mpr (hall i hi1 hi2))
    · exact ⟨hb1, hb2, hval, hmax⟩
  · intro other hlen hagree
    unfold findPeakAmplitude
    rw [loopRange_foldl, loopRange_foldl, hlen]
    apply scanFrom_congr
    intro j hj
    exact hagree _ (by omega) (by omega)

end PeakClaims

section HarmonicClaims

variable {K C : Type} [LinearOrderedField K] [FloorRing K] [CommRing C]

/-- C8: in a harmonic-mode analysis that passes the Nyquist guard, the noise
floor used for the ratios is `max(1e-4, (sum of the 256 spectrum bins - amp_1x
- amp_2x - amp_3x) / 253)`, where `amp_nx` is the amplitude found near the
expected bin of the `n`-th harmonic; it is at least `1e-4`, each ratio
`amp_nx / noise_floor` is non-negative, and the fault is the classification of
these three ratios. -/
theorem analyze_noise_floor (ops : MathOps K C) (raw_signal : List K)
    (config : ScanConfig K) (hlen : 512 ≤ raw_signal.length) (hrpm : 0 < config.target_rpm)
    (hguard : config.target_rpm / 60 < 0.85 * (config.actual_fps / 2)) :
    ∃ (r : DSPResult K) (amp_1x amp_2x amp_3x noise_floor : K),
      analyze ops raw_signal config = some r ∧
      r.spectrum.length = 256 ∧
      amp_1x = (findPeakAmplitude r.spectrum
        (cRound (config.target_rpm / 60 / (config.actual_fps / 512)))).1 ∧
      amp_2x = (findPeakAmplitude r.spectrum
        (cRound (config.target_rpm / 60 * 2 / (config.actual_fps / 512)))).1 ∧
      amp_3x = (findPeakAmplitude r.spectrum
        (cRound (config.target_rpm / 60 * 3 / (config.actual_fps / 512)))).1 ∧
      noise_floor = max (1 / 10000) ((r.spectrum.sum - amp_1x - amp_2x - amp_3x) / 253) ∧
      1 / 10000 ≤ noise_floor ∧
      0 ≤ amp_1x / noise_floor ∧ 0 ≤ amp_2x / noise_floor ∧ 0 ≤ amp_3x / noise_floor ∧
      r.fault = (classify (amp_1x / noise_floor) (amp_2x / noise_floor)
        (amp_3x / noise_floor)).1 ∧
      r.peak_amplitude = some amp_1x := by
  have h60 : (60.0 : K) = 60 := by norm_num
  have h2 : (2.0 : K) = 2 := by norm_num
  have h3 : (3.0 : K) = 3 := by norm_num
  have h512 : (FFT_SIZE : K) = 512 := by norm_num [FFT_SIZE]
  have hg : ¬ config.target_rpm / 60.0 ≥ config.actual_fps / 2.0 * 0.85 := by
    rw [h60, h2, mul_comm]
    exact not_le.mpr hguard
  obtain ⟨e, -, he⟩ := analyze_harmonic ops raw_signal config hlen hrpm hg
    _ rfl _ _ _ rfl rfl rfl _ rfl
  rw [h60, h2, h3, h512, noise_sum_eq, noiseFloor_eq_max] at he
  have hnf : (1 : K) / 10000 ≤ max (1 / 10000)
      (((magnitudeSpectrum ops (raw_signal.drop (raw_signal.length - FFT_SIZE))).sum
        - (findPeakAmplitude (magnitudeSpectrum ops
            (raw_signal.drop (raw_signal.length - FFT_SIZE)))
            (cRound (config.target_rpm / 60 / (config.actual_fps / 512)))).1
        - (findPeakAmplitude (magnitudeSpectrum ops
            (raw_signal.drop (raw_signal.length - FFT_SIZE)))
            (cRound (config.target_rpm / 60 * 2 / (config.actual_fps / 512)))).1
        - (findPeakAmplitude (magnitudeSpectrum ops
            (raw_signal.drop (raw_signal.length - FFT_SIZE)))
            (cRound (config.target_rpm / 60 * 3 / (config.actual_fps / 512)))).1) / 253) :=
    le_max_left _ _
  have hpos : (0 : K) < 1 / 10000 := by norm_num
  refine ⟨_, _, _, _, _, he, magnitudeSpectrum_length _ _, rfl, rfl, rfl, rfl, hnf,
    div_nonneg (findPeakAmplitude_spec _ _).1 (le_trans (le_of_lt hpos) hnf),
    div_nonneg (findPeakAmplitude_spec _ _).1 (le_trans (le_of_lt hpos) hnf),
    div_nonneg (findPeakAmplitude_spec _ _).1 (le_trans (le_of_lt hpos) hnf), rfl, rfl⟩

end HarmonicClaims

section ComplexClaims

/-- C9: for a complex sequence `x` whose length `n` is a power of two, and with
`M_PI` and `std::polar` those of analysis, `computeFFT` yields a sequence of the
same length whose entry `k` is the forward discrete Fourier transform
`sum over j in [0, n) of x[j] * exp(-2 pi i j k / n)`. -/
theorem computeFFT_is_dft (ops : MathOps ℝ ℂ) (hpi : ops.pi = Real.pi)
    (hpolar : ∀ rho theta : ℝ, ops.polar rho theta
      = (rho : ℂ) * Complex.exp ((theta : ℂ) * Complex.I))
    (x : List ℂ) (m : Nat) (hx : x.length = 2 ^ m) :
    (computeFFT ops x).length = x.length ∧
    ∀ k : Nat, k < x.length →
      (computeFFT ops x).getD k 0
        = ∑ j in Finset.range x.length, x.getD j 0 *
            Complex.exp (-2 * Real.pi * Complex.I * (j : ℂ) * (k : ℂ) / (x.length : ℂ)) := by
  refine ⟨computeFFT_length ops x, ?_⟩
  intro k hk
  rw [hx] at hk
  rw [computeFFT_complex ops hpi hpolar m x hx k hk, hx]
  apply Finset.sum_congr rfl
  intro j _
  congr 2
  push_cast
  ring

/-- C10: for an impulse of length 512 (a single `1` at any position, `0`
elsewhere), and with `M_PI` and `std::polar` those of analysis, `computeFFT`
yields 512 bins that all have magnitude 1. -/
theorem computeFFT_impulse_flat (ops : MathOps ℝ ℂ) (hpi : ops.pi = Real.pi)
    (hpolar : ∀ rho theta : ℝ, ops.polar rho theta
      = (rho : ℂ) * Complex.exp ((theta : ℂ) * Complex.I))
    (pos : Nat) (hpos : pos < 512) :
    (computeFFT ops (impulse 512 pos : List ℂ)).length = 512 ∧
    ∀ k : Nat, k < 512 →
      Complex.abs ((computeFFT ops (impulse 512 pos : List ℂ)).getD k 0) = 1 := by
  have hlen : (impulse 512 pos : List ℂ).length = 2 ^ 9 := by
    simp [impulse]
  refine ⟨by rw [computeFFT_length, hlen]; norm_num, ?_⟩
  intro k hk
  rw [computeFFT_complex ops hpi hpolar 9 _ hlen k (by norm_num; exact hk)]
  rw [Finset.sum_eq_single pos]
  · rw [impulse, getD_map_range _ _ _ hpos, if_pos rfl, one_mul]
    exact kernel_abs _ _
  · intro j hj hne
    rw [impulse, getD_map_range _ _ _ (by simpa using hj), if_neg hne, zero_mul]
  · intro h
    exact absurd (Finset.mem_range.mpr (by norm_num; exact hpos)) h

end ComplexClaims

/-! The theorems at concrete inputs

The library functions are instantiated with those of analysis over `ℝ` and `ℂ`;
the peak locator is evaluated on short rational spectra. -/

section Instances

theorem analyze_insufficient_data_witness :
    ([] : List ℝ).length < 512 ∧
    ∃ r, analyze (⟨Real.pi, Real.cos, fun rho theta => (rho : ℂ) * Complex.exp ((theta : ℂ) * Complex.I),
      fun z => Complex.abs z, fun re im => ⟨re, im⟩⟩ : MathOps ℝ ℂ)
        ([] : List ℝ) ⟨30, 0⟩ = some r ∧
      r.fault = FaultType.INSUFFICIENT_DATA ∧
      r.spectrum.length = 256 ∧ ∀ v ∈ r.spectrum, v = 0 :=
  ⟨by simp, (analyze_insufficient_data _ [] ⟨30, 0⟩).1 (by simp)⟩

theorem analyze_unmeasurable_iff_witness :
    512 ≤ (List.replicate 512 (0 : ℝ)).length ∧
    ∃ r, analyze (⟨Real.pi, Real.cos, fun rho theta => (rho : ℂ) * Complex.exp ((theta : ℂ) * Complex.I),
      fun z => Complex.abs z, fun re im => ⟨re, im⟩⟩ : MathOps ℝ ℂ)
        (List.replicate 512 (0 : ℝ)) ⟨30, 810⟩ = some r ∧
      r.fault = FaultType.UNMEASURABLE := by
  refine ⟨(List.length_replicate _ _).ge, ?_⟩
  obtain ⟨r, hr, hiff, -⟩ := analyze_unmeasurable_iff (⟨Real.pi, Real.cos, fun rho theta => (rho : ℂ) * Complex.exp ((theta : ℂ) * Complex.I),
      fun z => Complex.abs z, fun re im => ⟨re, im⟩⟩ : MathOps ℝ ℂ)
    (List.replicate 512 (0 : ℝ)) ⟨30, 810⟩ (List.length_replicate _ _).ge
  exact ⟨r, hr, (hiff (by norm_num)).mpr (by norm_num)⟩

theorem analyze_spectrum_shape_witness :
    (∀ z : ℂ, 0 ≤ Complex.abs z) ∧
    ∃ r, analyze (⟨Real.pi, Real.cos, fun rho theta => (rho : ℂ) * Complex.exp ((theta : ℂ) * Complex.I),
      fun z => Complex.abs z, fun re im => ⟨re, im⟩⟩ : MathOps ℝ ℂ)
        (List.replicate 600 (1 : ℝ)) ⟨30, 0⟩ = some r ∧
      r.spectrum.length = 256 ∧ (∀ v ∈ r.spectrum, 0 ≤ v) := by
  refine ⟨fun z => AbsoluteValue.nonneg _ z, ?_⟩
  obtain ⟨r, hr, h1, h2, -⟩ := analyze_spectrum_shape (⟨Real.pi, Real.cos, fun rho theta => (rho : ℂ) * Complex.exp ((theta : ℂ) * Complex.I),
      fun z => Complex.abs z, fun re im => ⟨re, im⟩⟩ : MathOps ℝ ℂ)
    (fun z => AbsoluteValue.nonneg _ z) (List.replicate 600 (1 : ℝ)) ⟨30, 0⟩
  exact ⟨r, hr, h1, h2⟩

theorem analyze_blind_mode_witness :
    (∀ z : ℂ, 0 ≤ Complex.abs z) ∧ 512 ≤ (List.replicate 512 (0 : ℝ)).length ∧
    ((0 : ℝ) ≤ 0) ∧
    ∃ r, analyze (⟨Real.pi, Real.cos, fun rho theta => (rho : ℂ) * Complex.exp ((theta : ℂ) * Complex.I),
      fun z => Complex.abs z, fun re im => ⟨re, im⟩⟩ : MathOps ℝ ℂ)
        (List.replicate 512 (0 : ℝ)) ⟨30, 0⟩ = some r ∧
      r.fault = FaultType.NO_FAULT ∧ r.message = "Self-Test / Blind Scan Complete" := by
  refine ⟨fun z => AbsoluteValue.nonneg _ z, (List.length_replicate _ _).ge, le_refl _, ?_⟩
  obtain ⟨r, b, e, hr, h1, h2, -⟩ := analyze_blind_mode (⟨Real.pi, Real.cos, fun rho theta => (rho : ℂ) * Complex.exp ((theta : ℂ) * Complex.I),
      fun z => Complex.abs z, fun re im => ⟨re, im⟩⟩ : MathOps ℝ ℂ)
    (fun z => AbsoluteValue.nonneg _ z) (List.replicate 512 (0 : ℝ)) ⟨30, 0⟩
    (List.length_replicate _ _).ge (le_refl _)
  exact ⟨r, hr, h1, h2⟩

theorem interpolatePeak_contract_witness :
    1 ≤ ([1, 3, 2] : List ℚ).length ∧ ([1, 3, 2] : List ℚ).length < 2 ^ 64 ∧
    interpolatePeak ([1, 3, 2] : List ℚ) 1 = some (7 / 6) ∧
    interpolatePeak ([1, 3, 3] : List ℚ) 1 = some 1 ∧
    interpolatePeak (List.replicate 256 (1 : ℚ)) 255 = some 255 := by
  have e0 : binValue ([1, 3, 2] : List ℚ) (1 - 1) = 1 := rfl
  have e1 : binValue ([1, 3, 2] : List ℚ) 1 = 3 := rfl
  have e2 : binValue ([1, 3, 2] : List ℚ) (1 + 1) = 2 := rfl
  have hlen : (List.replicate 256 (1 : ℚ)).length = 256 := List.length_replicate _ _
  refine ⟨by simp, by simp, ?_, ?_, ?_⟩
  · rw [(interpolatePeak_contract ([1, 3, 2] : List ℚ) 1 (by simp) (by simp)).2.2.1
      (by norm_num) (by simp) (by rw [e0, e1, e2]; norm_num), e0, e1, e2]
    norm_num
  · exact (interpolatePeak_contract ([1, 3, 3] : List ℚ) 1 (by simp) (by simp)).2.2.2 rfl
  · have h := (interpolatePeak_contract (List.replicate 256 (1 : ℚ)) 255
      (by rw [hlen]; norm_num) (by rw [hlen]; norm_num)).1
      (Or.inr (by rw [hlen]; norm_num))
    rw [h]
    norm_num

/-- C7, the claim as stated fails: on the spectrum `[0, 1, 2, 3]` with expected
bin 2 the search returns bin 3, the last bin `len - 1`, which lies outside the
claimed window `[max(1, 0), min(len - 2, 4)] = [1, 2]`. -/
theorem findPeakAmplitude_last_bin_counterexample :
    findPeakAmplitude ([0, 1, 2, 3] : List ℚ) 2 = (3, 3) ∧
    ¬ ((3 : Int) ≤ min ((([0, 1, 2, 3] : List ℚ).length : Int) - 2) (2 + 2)) := by
  constructor
  · have h1 : loopRange (max 1 ((2 : Int) - 2))
        (min ((([0, 1, 2, 3] : List ℚ).length : Int) - 1) (2 + 2)) = [1, 2, 3] := by decide
    have e1 : binValue ([0, 1, 2, 3] : List ℚ) 1 = 1 := rfl
    have e2 : binValue ([0, 1, 2, 3] : List ℚ) 2 = 2 := rfl
    have e3 : binValue ([0, 1, 2, 3] : List ℚ) 3 = 3 := rfl
    rw [findPeakAmplitude]
    simp only [h1]
    simp only [List.foldl, peakStep, e1, e2, e3]
    norm_num
  · decide

theorem findPeakAmplitude_window_witness :
    (∀ i : Int, max 1 ((2 : Int) - 2) ≤ i →
      i ≤ min ((([0, 0, 0, 0] : List ℚ).length : Int) - 1) (2 + 2) →
      binValue ([0, 0, 0, 0] : List ℚ) i ≤ 0) ∧
    findPeakAmplitude ([0, 0, 0, 0] : List ℚ) 2 = (0, 2) := by
  have hall : ∀ i : Int, max 1 ((2 : Int) - 2) ≤ i →
      i ≤ min ((([0, 0, 0, 0] : List ℚ).length : Int) - 1) (2 + 2) →
      binValue ([0, 0, 0, 0] : List ℚ) i ≤ 0 := by
    intro i h1 h2
    have h3 : 1 ≤ i := by simpa using h1
    have h4 : i ≤ 3 := by
      have := le_trans h2 (min_le_left _ _)
      simpa using this
    have : i = 1 ∨ i = 2 ∨ i = 3 := by omega
    rcases this with rfl | rfl | rfl <;> exact le_of_eq rfl
  exact ⟨hall, (findPeakAmplitude_window ([0, 0, 0, 0] : List ℚ) 2).1 hall⟩

theorem analyze_noise_floor_witness :
    512 ≤ (List.replicate 512 (0 : ℝ)).length ∧ (0 : ℝ) < 600 ∧
    (600 : ℝ) / 60 < 0.85 * (100 / 2) ∧
    ∃ (r : DSPResult ℝ) (noise_floor : ℝ), analyze (⟨Real.pi, Real.cos, fun rho theta => (rho : ℂ) * Complex.exp ((theta : ℂ) * Complex.I),
      fun z => Complex.abs z, fun re im => ⟨re, im⟩⟩ : MathOps ℝ ℂ)
        (List.replicate 512 (0 : ℝ)) ⟨100, 600⟩ = some r ∧
      r.spectrum.length = 256 ∧ 1 / 10000 ≤ noise_floor := by
  refine ⟨(List.length_replicate _ _).ge, by norm_num, by norm_num, ?_⟩
  obtain ⟨r, a1, a2, a3, nf, hr, hl, -, -, -, -, hnf, -⟩ := analyze_noise_floor (⟨Real.pi, Real.cos, fun rho theta => (rho : ℂ) * Complex.exp ((theta : ℂ) * Complex.I),
      fun z => Complex.abs z, fun re im => ⟨re, im⟩⟩ : MathOps ℝ ℂ)
    (List.replicate 512 (0 : ℝ)) ⟨100, 600⟩ (List.length_replicate _ _).ge (by norm_num)
    (by norm_num)
  exact ⟨r, nf, hr, hl, hnf⟩

theorem computeFFT_is_dft_witness :
    ([1, 2] : List ℂ).length = 2 ^ 1 ∧
    (computeFFT (⟨Real.pi, Real.cos, fun rho theta => (rho : ℂ) * Complex.exp ((theta : ℂ) * Complex.I),
      fun z => Complex.abs z, fun re im => ⟨re, im⟩⟩ : MathOps ℝ ℂ)
      ([1, 2] : List ℂ)).length = ([1, 2] : List ℂ).length ∧
    ∀ k : Nat, k < ([1, 2] : List ℂ).length →
      (computeFFT (⟨Real.pi, Real.cos, fun rho theta => (rho : ℂ) * Complex.exp ((theta : ℂ) * Complex.I),
      fun z => Complex.abs z, fun re im => ⟨re, im⟩⟩ : MathOps ℝ ℂ)
        ([1, 2] : List ℂ)).getD k 0
        = ∑ j in Finset.range ([1, 2] : List ℂ).length, ([1, 2] : List ℂ).getD j 0 *
            Complex.exp (-2 * Real.pi * Complex.I * (j : ℂ) * (k : ℂ)
              / (([1, 2] : List ℂ).length : ℂ)) :=
  ⟨rfl, computeFFT_is_dft _ rfl (fun _ _ => rfl) [1, 2] 1 rfl⟩

theorem computeFFT_impulse_flat_witness :
    (3 : Nat) < 512 ∧
    (computeFFT (⟨Real.pi, Real.cos, fun rho theta => (rho : ℂ) * Complex.exp ((theta : ℂ) * Complex.I),
      fun z => Complex.abs z, fun re im => ⟨re, im⟩⟩ : MathOps ℝ ℂ)
      (impulse 512 3 : List ℂ)).length = 512 ∧
    ∀ k : Nat, k < 512 →
      Complex.abs ((computeFFT (⟨Real.pi, Real.cos, fun rho theta => (rho : ℂ) * Complex.exp ((theta : ℂ) * Complex.I),
      fun z => Complex.abs z, fun re im => ⟨re, im⟩⟩ : MathOps ℝ ℂ)
        (impulse 512 3 : List ℂ)).getD k 0) = 1 :=
  ⟨by norm_num, computeFFT_impulse_flat _ rfl (fun _ _ => rfl) 3 (by norm_num)⟩

end Instances


/-! The trailing window, constant offsets and serialization -/

section WindowLists

variable {K : Type}

theorem drop_append_window (p s : List K) (h : 512 ≤ s.length) :
    (p ++ s).drop ((p ++ s).length - FFT_SIZE) = s.drop (s.length - FFT_SIZE) := by
  have h1 : (p ++ s).length - FFT_SIZE = p.length + (s.length - FFT_SIZE) := by
    simp only [List.length_append, FFT_SIZE]
    omega
  rw [h1, List.drop_append]

theorem drop_window_idem (s : List K) (h : 512 ≤ s.length) :
    (s.drop (s.length - FFT_SIZE)).drop ((s.drop (s.length - FFT_SIZE)).length - FFT_SIZE)
      = s.drop (s.length - FFT_SIZE) := by
  have h1 : (s.drop (s.length - FFT_SIZE)).length - FFT_SIZE = 0 := by
    simp only [List.length_drop, FFT_SIZE]
    omega
  rw [h1, List.drop_zero]

end WindowLists

section MeanRemoval

variable {K C : Type} [LinearOrderedField K]

theorem sum_map_add_const (l : List K) (c : K) :
    (l.map (fun x => x + c)).sum = l.sum + (l.length : K) * c := by
  induction l with
  | nil => simp
  | cons a l ih =>
    rw [List.map_cons, List.sum_cons, ih, List.sum_cons, List.length_cons]
    push_cast
    ring

/-- Mean removal cancels a constant offset of the 512 samples. -/
theorem windowed_offset (ops : MathOps K C) (signal : List K) (c : K)
    (hlen : signal.length = 512) :
    windowed ops (signal.map (fun x => x + c)) = windowed ops signal := by
  unfold windowed
  apply List.map_congr_left
  intro i hi
  have hi2 : i < signal.length := by
    rw [hlen]
    simpa [FFT_SIZE] using hi
  have hget : (signal.map (fun x => x + c)).getD i 0 = signal.getD i 0 + c := by
    rw [List.getD_eq_getElem?_getD, List.getD_eq_getElem?_getD, List.getElem?_map,
      List.getElem?_eq_getElem hi2]
    rfl
  have hmean : (signal.map (fun x => x + c)).foldl (· + ·) 0.0 / (FFT_SIZE : K)
      = signal.foldl (· + ·) 0.0 / (FFT_SIZE : K) + c := by
    rw [noise_sum_eq, noise_sum_eq, sum_map_add_const, hlen]
    norm_num [FFT_SIZE]
    ring
  simp only [hget, hmean]
  congr 2
  ring

end MeanRemoval

section OffsetLemmas

variable {K C : Type} [LinearOrderedField K] [CommRing C]

theorem getD_zero_of_all_zero (l : List C) (h : ∀ v ∈ l, v = 0) (k : Nat) :
    l.getD k 0 = 0 := by
  rw [List.getD_eq_getElem?_getD]
  rcases hq : l[k]? with _ | v
  · rfl
  · exact h v (List.getElem?_mem hq)

/-- The transform of an all-zero sequence is all zero. -/
theorem computeFFT_zero (ops : MathOps K C) (n : Nat) :
    ∀ x : List C, x.length = n → (∀ v ∈ x, v = 0) → ∀ v ∈ computeFFT ops x, v = 0 := by
  induction n using Nat.strong_induction_on with
  | _ n ih =>
    intro x hx hz
    rw [computeFFT]
    split
    · exact hz
    · rename_i hgt
      have hE := ih (x.length / 2) (by omega)
        ((List.range (x.length / 2)).map (fun i => x.getD (i * 2) 0)) (by simp)
        (by
          intro v hv
          obtain ⟨i, -, rfl⟩ := List.mem_map.mp hv
          exact getD_zero_of_all_zero x hz _)
      have hO := ih (x.length / 2) (by omega)
        ((List.range (x.length / 2)).map (fun i => x.getD (i * 2 + 1) 0)) (by simp)
        (by
          intro v hv
          obtain ⟨i, -, rfl⟩ := List.mem_map.mp hv
          exact getD_zero_of_all_zero x hz _)
      intro v hv
      simp only [butterfly, List.mem_append, List.mem_map, List.mem_range] at hv
      rcases hv with (⟨k, -, rfl⟩ | ⟨k, -, rfl⟩) | hv
      · rw [getD_zero_of_all_zero _ hE, getD_zero_of_all_zero _ hO]
        simp
      · rw [getD_zero_of_all_zero _ hE, getD_zero_of_all_zero _ hO]
        simp
      · exact hz v (List.mem_of_mem_drop hv)

/-- A constant window has an all-zero spectrum, when the complex number
`(0, 0)` is zero and has magnitude zero. -/
theorem magnitudeSpectrum_constant (ops : MathOps K C) (hcplx : ops.complex 0 0 = 0)
    (hcabs0 : ops.cabs 0 = 0) (signal : List K) (c : K) (hlen : signal.length = 512)
    (hconst : ∀ v ∈ signal, v = c) :
    ∀ v ∈ magnitudeSpectrum ops signal, v = 0 := by
  have hsum : signal.sum = 512 * c := by
    rw [List.eq_replicate_of_mem hconst, List.sum_replicate, hlen]
    simp
  have hw : ∀ v ∈ windowed ops signal, v = 0 := by
    intro v hv
    simp only [windowed, List.mem_map, List.mem_range] at hv
    obtain ⟨i, hi, rfl⟩ := hv
    have hi2 : i < signal.length := by
      rw [hlen]
      simpa [FFT_SIZE] using hi
    have hget : signal.getD i 0 = c := by
      rw [List.getD_eq_getElem?_getD, List.getElem?_eq_getElem hi2]
      exact hconst _ (List.getElem_mem _)
    have h00 : (0.0 : K) = 0 := by norm_num
    rw [hget, noise_sum_eq, hsum, h00]
    have : (512 * c / (FFT_SIZE : K) : K) = c := by norm_num [FFT_SIZE]
    rw [this, sub_self, zero_mul, hcplx]
  intro v hv
  simp only [magnitudeSpectrum, List.mem_map, List.mem_range] at hv
  obtain ⟨k, -, rfl⟩ := hv
  rw [getD_zero_of_all_zero _ (computeFFT_zero ops _ _ rfl hw), hcabs0, zero_div]

end OffsetLemmas

section Totality

variable {K C : Type} [LinearOrderedField K] [FloorRing K] [CommRing C]

/-- `analyze` depends on the buffer only through "fewer than 512 samples" and
the spectrum of its last 512 samples. -/
theorem analyze_congr (ops : MathOps K C) (raw1 raw2 : List K) (config : ScanConfig K)
    (hlen : raw1.length < FFT_SIZE ↔ raw2.length < FFT_SIZE)
    (hspec : ¬ raw1.length < FFT_SIZE →
      magnitudeSpectrum ops (raw1.drop (raw1.length - FFT_SIZE))
        = magnitudeSpectrum ops (raw2.drop (raw2.length - FFT_SIZE))) :
    analyze ops raw1 config = analyze ops raw2 config := by
  unfold analyze
  by_cases h : raw1.length < FFT_SIZE
  · rw [if_pos h, if_pos (hlen.mp h)]
  · rw [if_neg h, if_neg (fun h2 => h (hlen.mpr h2))]
    simp only [hspec h]

/-- On a buffer of at least 512 samples `analyze` returns a result that
carries the spectrum of the last 512 samples. -/
theorem analyze_spectrum_eq (ops : MathOps K C) (raw_signal : List K)
    (config : ScanConfig K) (hlen : 512 ≤ raw_signal.length) :
    ∃ r, analyze ops raw_signal config = some r ∧
      r.spectrum = magnitudeSpectrum ops (raw_signal.drop (raw_signal.length - FFT_SIZE)) := by
  by_cases hrpm : config.target_rpm ≤ 0
  · obtain ⟨e, -, he⟩ := analyze_blind ops raw_signal config hlen hrpm
    exact ⟨_, he, rfl⟩
  · by_cases hg : config.target_rpm / 60.0 ≥ config.actual_fps / 2.0 * 0.85
    · exact ⟨_, analyze_unmeasurable ops raw_signal config hlen (not_le.mp hrpm) hg, rfl⟩
    · obtain ⟨e, -, he⟩ := analyze_harmonic ops raw_signal config hlen (not_le.mp hrpm) hg
        _ rfl _ _ _ rfl rfl rfl _ rfl
      exact ⟨_, he, rfl⟩

/-- For every buffer and config `analyze` returns a result; its spectrum has
256 entries and its `confidence` field is never assigned. -/
theorem analyze_total (ops : MathOps K C) (raw_signal : List K) (config : ScanConfig K) :
    ∃ r, analyze ops raw_signal config = some r ∧ r.spectrum.length = 256 ∧
      r.confidence = none := by
  by_cases hlen : raw_signal.length < 512
  · exact ⟨_, analyze_short ops raw_signal config hlen, List.length_replicate _ _, rfl⟩
  · have hlen2 : 512 ≤ raw_signal.length := not_lt.mp hlen
    by_cases hrpm : config.target_rpm ≤ 0
    · obtain ⟨e, -, he⟩ := analyze_blind ops raw_signal config hlen2 hrpm
      exact ⟨_, he, magnitudeSpectrum_length _ _, rfl⟩
    · by_cases hg : config.target_rpm / 60.0 ≥ config.actual_fps / 2.0 * 0.85
      · exact ⟨_, analyze_unmeasurable ops raw_signal config hlen2 (not_le.mp hrpm) hg,
          magnitudeSpectrum_length _ _, rfl⟩
      · obtain ⟨e, -, he⟩ := analyze_harmonic ops raw_signal config hlen2 (not_le.mp hrpm) hg
          _ rfl _ _ _ rfl rfl rfl _ rfl
        exact ⟨_, he, magnitudeSpectrum_length _ _, rfl⟩

theorem castInt32_261 : castInt32 261 = 261 := by decide

theorem ordinal_le (f : FaultType) : f.ordinal ≤ 5 := by
  cases f <;> decide

end Totality

section WindowClaims

variable {K C : Type} [LinearOrderedField K] [FloorRing K] [CommRing C]

/-- C11: `analyze` consumes only the trailing 512 samples: for a buffer `s` of
at least 512 samples, any prefix `p` and any config, `analyze (p ++ s)` equals
`analyze s`, and both equal `analyze` of the last 512 entries of `s`. -/
theorem analyze_trailing_window (ops : MathOps K C) (p s : List K) (config : ScanConfig K)
    (hlen : 512 ≤ s.length) :
    analyze ops (p ++ s) config = analyze ops s config ∧
    analyze ops s config = analyze ops (s.drop (s.length - 512)) config ∧
    (s.drop (s.length - 512)).length = 512 := by
  have e : (512 : Nat) = FFT_SIZE := rfl
  have hlen2 : FFT_SIZE ≤ s.length := hlen
  rw [e]
  refine ⟨analyze_congr ops _ _ config ?_ ?_, analyze_congr ops _ _ config ?_ ?_, ?_⟩
  · rw [List.length_append]
    omega
  · intro _
    rw [drop_append_window p s hlen]
  · rw [List.length_drop]
    omega
  · intro _
    rw [drop_window_idem s hlen]
  · rw [List.length_drop]
    omega

/-- C13: for a non-empty sample buffer `finalizeScan` produces a flat array of
exactly 5 + 256 = 261 doubles, in the order dominant frequency, peak amplitude,
confidence, fault code (the ordinal 0..5 of the fault), spectrum length (256),
then the 256 spectrum values in bin order, and stores 261 in `out_size`; for an
empty buffer it returns null with `out_size` 0. -/
theorem finalizeScan_layout (ops : MathOps K C) (signal_buffer : List K)
    (actual_fps target_rpm : K) :
    (signal_buffer = [] →
      finalizeScan ops signal_buffer actual_fps target_rpm
        = some { data := none, out_size := 0 }) ∧
    (signal_buffer ≠ [] →
      ∃ (r : DSPResult K) (out : List (Option K)),
        analyze ops signal_buffer { actual_fps := actual_fps, target_rpm := target_rpm }
          = some r ∧
        finalizeScan ops signal_buffer actual_fps target_rpm
          = some { data := some out, out_size := 261 } ∧
        out.length = 261 ∧
        out = [r.dominant_frequency, r.peak_amplitude, r.confidence,
                some (r.fault.ordinal : K), some 256] ++ r.spectrum.map some ∧
        r.fault.ordinal ≤ 5 ∧ r.spectrum.length = 256 ∧
        ∀ k : Nat, k < 256 → out[5 + k]? = some (some (r.spectrum.getD k 0))) := by
  constructor
  · intro h
    rw [h]
    rfl
  · intro h
    obtain ⟨r, hr, hlen, -⟩ := analyze_total ops signal_buffer
      { actual_fps := actual_fps, target_rpm := target_rpm }
    have hne : signal_buffer.isEmpty = false := by
      cases signal_buffer with
      | nil => exact absurd rfl h
      | cons a l => rfl
    have hout : ([r.dominant_frequency, r.peak_amplitude, r.confidence,
        some (r.fault.ordinal : K), some (r.spectrum.length : K)]
        ++ r.spectrum.map some).length = 261 := by
      rw [List.length_append, List.length_map, hlen]
      rfl
    refine ⟨r, _, hr, ?_, hout, ?_, ordinal_le _, hlen, ?_⟩
    · unfold finalizeScan
      rw [hne, hr]
      simp only [Bool.false_eq_true, if_false, Option.map_some']
      rw [hout, castInt32_261]
    · rw [hlen]
      norm_num
    · intro k hk
      rw [List.getElem?_append_right (by simp), List.getElem?_map]
      simp only [List.length_cons, List.length_nil]
      rw [show 5 + k - (0 + 1 + 1 + 1 + 1 + 1) = k by omega,
        List.getElem?_eq_getElem (by omega), List.getD_eq_getElem?_getD,
        List.getElem?_eq_getElem (by omega)]
      rfl

/-- C16: `analyze` never assigns the `confidence` field: on every buffer and
config it returns a result whose `confidence` holds no assigned value, and
`finalizeScan` copies that indeterminate value into slot 2 of its array. -/
theorem analyze_confidence_unassigned (ops : MathOps K C) (raw_signal : List K)
    (config : ScanConfig K) :
    (∃ r, analyze ops raw_signal config = some r ∧ r.confidence = none) ∧
    (raw_signal ≠ [] →
      ∃ out, finalizeScan ops raw_signal config.actual_fps config.target_rpm
          = some { data := some out, out_size := 261 } ∧
        out[2]? = some none) := by
  obtain ⟨r, hr, hlen, hc⟩ := analyze_total ops raw_signal config
  refine ⟨⟨r, hr, hc⟩, ?_⟩
  intro h
  have hne : raw_signal.isEmpty = false := by
    cases raw_signal with
    | nil => exact absurd rfl h
    | cons a l => rfl
  have hout : ([r.dominant_frequency, r.peak_amplitude, r.confidence,
      some (r.fault.ordinal : K), some (r.spectrum.length : K)]
      ++ r.spectrum.map some).length = 261 := by
    rw [List.length_append, List.length_map, hlen]
    rfl
  have hr2 : analyze ops raw_signal
      { actual_fps := config.actual_fps, target_rpm := config.target_rpm } = some r := hr
  refine ⟨[r.dominant_frequency, r.peak_amplitude, r.confidence,
      some (r.fault.ordinal : K), some (r.spectrum.length : K)]
      ++ r.spectrum.map some, ?_, ?_⟩
  · unfold finalizeScan
    rw [hne, hr2]
    simp only [Bool.false_eq_true, if_false, Option.map_some']
    rw [hout, castInt32_261]
  · simp [hc]

/-- C18: over exact arithmetic `analyze` is invariant under a constant offset of
the input, for every buffer, constant and config; and (given that the complex
number `(0, 0)` is zero with magnitude zero) every constant buffer of at least
512 samples yields an all-zero spectrum. -/
theorem analyze_offset_invariant (ops : MathOps K C) (s : List K) (c : K)
    (config : ScanConfig K) :
    analyze ops (s.map (fun x => x + c)) config = analyze ops s config ∧
    (ops.complex 0 0 = 0 → ops.cabs 0 = 0 →
      ∀ n : Nat, 512 ≤ n →
        ∃ r, analyze ops (List.replicate n c) config = some r ∧
          r.spectrum.length = 256 ∧ ∀ v ∈ r.spectrum, v = 0) := by
  constructor
  · apply analyze_congr
    · rw [List.length_map]
    · intro h
      have hl : 512 ≤ s.length := by
        simp only [List.length_map, FFT_SIZE] at h
        omega
      rw [List.length_map, ← List.map_drop]
      unfold magnitudeSpectrum
      rw [windowed_offset ops _ c (by simp only [List.length_drop, FFT_SIZE]; omega)]
  · intro hcplx hcabs0 n hn
    obtain ⟨r, hr, hs⟩ := analyze_spectrum_eq ops (List.replicate n c) config
      (by rw [List.length_replicate]; exact hn)
    refine ⟨r, hr, by rw [hs]; exact magnitudeSpectrum_length _ _, ?_⟩
    rw [hs]
    apply magnitudeSpectrum_constant ops hcplx hcabs0 _ c
    · simp only [List.length_drop, List.length_replicate, FFT_SIZE]
      omega
    · intro v hv
      exact List.eq_of_mem_replicate (List.mem_of_mem_drop hv)

end WindowClaims

section RuleOrder

variable {K : Type} [LinearOrderedField K]

/-- C20: the `UNBALANCE` rule is disjoint from the `MISALIGNMENT` rule and from
the `LOOSENESS` rule, so the classifier returns `UNBALANCE` iff `r_1x > 5`,
`r_2x < 3` and `r_3x < 3`, `MISALIGNMENT` iff `r_2x > r_1x` and `r_2x > 5`, and
`LOOSENESS` iff all three ratios exceed 3 and not (`r_2x > r_1x` and
`r_2x > 5`).  Every order of the three rules that tries `MISALIGNMENT` before
`LOOSENESS` gives the classifier's result on every triple; every order that
tries `LOOSENESS` first differs from it on the triple (4, 6, 4). -/
theorem classify_rule_order (r_1x r_2x r_3x : K) :
    ((classify r_1x r_2x r_3x).1 = FaultType.UNBALANCE ↔
      r_1x > 5 ∧ r_2x < 3 ∧ r_3x < 3) ∧
    ((classify r_1x r_2x r_3x).1 = FaultType.MISALIGNMENT ↔ r_2x > r_1x ∧ r_2x > 5) ∧
    ((classify r_1x r_2x r_3x).1 = FaultType.LOOSENESS ↔
      (r_1x > 3 ∧ r_2x > 3 ∧ r_3x > 3) ∧ ¬ (r_2x > r_1x ∧ r_2x > 5)) ∧
    ¬ ((r_1x > 5 ∧ r_2x < 3 ∧ r_3x < 3) ∧ (r_2x > r_1x ∧ r_2x > 5)) ∧
    ¬ ((r_1x > 5 ∧ r_2x < 3 ∧ r_3x < 3) ∧ (r_1x > 3 ∧ r_2x > 3 ∧ r_3x > 3)) ∧
    (∀ order ∈ [[Rule.unbalance, Rule.misalignment, Rule.looseness],
                [Rule.misalignment, Rule.unbalance, Rule.looseness],
                [Rule.misalignment, Rule.looseness, Rule.unbalance]],
      classifyInOrder order r_1x r_2x r_3x = (classify r_1x r_2x r_3x).1) ∧
    (∀ order ∈ [[Rule.unbalance, Rule.looseness, Rule.misalignment],
                [Rule.looseness, Rule.unbalance, Rule.misalignment],
                [Rule.looseness, Rule.misalignment, Rule.unbalance]],
      classifyInOrder order (4 : K) 6 4 = FaultType.LOOSENESS ∧
      (classify (4 : K) 6 4).1 = FaultType.MISALIGNMENT) := by
  have h5 : (5.0 : K) = 5 := by norm_num
  have h3 : (3.0 : K) = 3 := by norm_num
  refine ⟨?_, ?_, ?_, ?_, ?_, ?_, ?_⟩
  · rw [classify_fault]
    split_ifs with h1 h2 h3 <;> simp [h1]
  · rw [classify_fault]
    split_ifs with h1 h2 h3
    · simp only [false_iff, reduceCtorEq]
      rintro ⟨-, h⟩
      linarith [h1.2.1]
    · simp [h2]
    · simp [h2]
    · simp [h2]
  · rw [classify_fault]
    split_ifs with h1 h2 h3
    · simp only [false_iff, reduceCtorEq, not_and]
      rintro ⟨-, h, -⟩
      linarith [h1.2.1]
    · simp [h2]
    · simp [h2, h3]
    · simp [h3]
  · rintro ⟨⟨-, h, -⟩, -, h2⟩
    linarith
  · rintro ⟨⟨-, h, -⟩, -, h2, -⟩
    linarith
  · intro order horder
    rw [classify_fault]
    simp only [List.mem_cons, List.mem_singleton, List.not_mem_nil, or_false] at horder
    have hd : ¬ ((r_1x > 5 ∧ r_2x < 3 ∧ r_3x < 3) ∧ (r_2x > r_1x ∧ r_2x > 5)) := by
      rintro ⟨⟨-, h, -⟩, -, h2⟩
      linarith
    have hd3 : ¬ ((r_1x > 5 ∧ r_2x < 3 ∧ r_3x < 3) ∧ (r_1x > 3 ∧ r_2x > 3 ∧ r_3x > 3)) := by
      rintro ⟨⟨-, h, -⟩, -, h2, -⟩
      linarith
    by_cases p1 : (r_1x > 5 ∧ r_2x < 3 ∧ r_3x < 3)
    · have np2 : ¬ (r_2x > r_1x ∧ r_2x > 5) := fun h => hd ⟨p1, h⟩
      have np3 : ¬ (r_1x > 3 ∧ r_2x > 3 ∧ r_3x > 3) := fun h => hd3 ⟨p1, h⟩
      rcases horder with rfl | rfl | rfl <;>
        simp [classifyInOrder, List.find?, Rule.fires, Rule.fault, h5, h3, p1, np2, np3]
    · by_cases p2 : (r_2x > r_1x ∧ r_2x > 5)
      · rcases horder with rfl | rfl | rfl <;>
          simp [classifyInOrder, List.find?, Rule.fires, Rule.fault, h5, h3, p1, p2]
      · by_cases p3 : (r_1x > 3 ∧ r_2x > 3 ∧ r_3x > 3)
        · rcases horder with rfl | rfl | rfl <;>
            simp [classifyInOrder, List.find?, Rule.fires, Rule.fault, h5, h3, p1, p2, p3]
        · rcases horder with rfl | rfl | rfl <;>
            simp [classifyInOrder, List.find?, Rule.fires, Rule.fault, h5, h3, p1, p2, p3]
  · intro order horder
    simp only [List.mem_cons, List.mem_singleton, List.not_mem_nil, or_false] at horder
    refine ⟨?_, by rw [classify_fault]; norm_num⟩
    rcases horder with rfl | rfl | rfl <;>
      simp only [classifyInOrder, List.find?, Rule.fires, Rule.fault, h5, h3] <;>
      norm_num

end RuleOrder

section WindowInstances

theorem analyze_trailing_window_witness :
    512 ≤ (List.replicate 512 (0 : ℝ)).length ∧
    analyze (⟨Real.pi, Real.cos, fun rho theta => (rho : ℂ) * Complex.exp ((theta : ℂ) * Complex.I),
      fun z => Complex.abs z, fun re im => ⟨re, im⟩⟩ : MathOps ℝ ℂ)
        ([1, 2] ++ List.replicate 512 (0 : ℝ)) ⟨30, 0⟩
      = analyze (⟨Real.pi, Real.cos, fun rho theta => (rho : ℂ) * Complex.exp ((theta : ℂ) * Complex.I),
      fun z => Complex.abs z, fun re im => ⟨re, im⟩⟩ : MathOps ℝ ℂ)
        (List.replicate 512 (0 : ℝ)) ⟨30, 0⟩ :=
  ⟨(List.length_replicate _ _).ge,
    (analyze_trailing_window _ [1, 2] (List.replicate 512 (0 : ℝ)) ⟨30, 0⟩
      (List.length_replicate _ _).ge).1⟩

theorem analyze_offset_invariant_witness :
    ((⟨0, 0⟩ : ℂ) = 0) ∧ Complex.abs 0 = 0 ∧ 512 ≤ 600 ∧
    analyze (⟨Real.pi, Real.cos, fun rho theta => (rho : ℂ) * Complex.exp ((theta : ℂ) * Complex.I),
      fun z => Complex.abs z, fun re im => ⟨re, im⟩⟩ : MathOps ℝ ℂ)
        (([1, 2, 3] : List ℝ).map (fun x => x + 5)) ⟨30, 0⟩
      = analyze (⟨Real.pi, Real.cos, fun rho theta => (rho : ℂ) * Complex.exp ((theta : ℂ) * Complex.I),
      fun z => Complex.abs z, fun re im => ⟨re, im⟩⟩ : MathOps ℝ ℂ)
        ([1, 2, 3] : List ℝ) ⟨30, 0⟩ ∧
    ∃ r, analyze (⟨Real.pi, Real.cos, fun rho theta => (rho : ℂ) * Complex.exp ((theta : ℂ) * Complex.I),
      fun z => Complex.abs z, fun re im => ⟨re, im⟩⟩ : MathOps ℝ ℂ)
        (List.replicate 600 (5 : ℝ)) ⟨30, 0⟩ = some r ∧
      r.spectrum.length = 256 ∧ ∀ v ∈ r.spectrum, v = 0 :=
  ⟨rfl, map_zero _, by norm_num,
    (analyze_offset_invariant (⟨Real.pi, Real.cos, fun rho theta => (rho : ℂ) * Complex.exp ((theta : ℂ) * Complex.I),
      fun z => Complex.abs z, fun re im => ⟨re, im⟩⟩ : MathOps ℝ ℂ)
      [1, 2, 3] 5 ⟨30, 0⟩).1,
    (analyze_offset_invariant (⟨Real.pi, Real.cos, fun rho theta => (rho : ℂ) * Complex.exp ((theta : ℂ) * Complex.I),
      fun z => Complex.abs z, fun re im => ⟨re, im⟩⟩ : MathOps ℝ ℂ)
      [1, 2, 3] 5 ⟨30, 0⟩).2 rfl (map_zero _) 600 (by norm_num)⟩

end WindowInstances

/-! The sub-bin refinement and the self-test -/

section Offset

variable {K : Type} [LinearOrderedField K]

/-- The parabolic offset of a strict local maximum: strictly less than half a
bin, and directed to the larger neighbour. -/
theorem delta_bound (alpha beta gamma : K) (ha : alpha < beta) (hg : gamma < beta) :
    |0.5 * (alpha - gamma) / (alpha - 2.0 * beta + gamma)| < 1 / 2 ∧
    (0 < 0.5 * (alpha - gamma) / (alpha - 2.0 * beta + gamma) ↔ alpha < gamma) ∧
    (0.5 * (alpha - gamma) / (alpha - 2.0 * beta + gamma) < 0 ↔ gamma < alpha) := by
  have h2 : (2.0 : K) = 2 := by norm_num
  have h5 : (0.5 : K) = 1 / 2 := by norm_num
  rw [h2, h5]
  have hD : alpha - 2 * beta + gamma < 0 := by linarith
  refine ⟨?_, ?_, ?_⟩
  · rw [abs_lt]
    constructor
    · rw [lt_div_iff_of_neg hD]
      linarith
    · rw [div_lt_iff_of_neg hD]
      linarith
  · rw [lt_div_iff_of_neg hD]
    constructor <;> intro h <;> linarith
  · rw [div_lt_iff_of_neg hD]
    constructor <;> intro h <;> linarith

/-- On a non-empty spectrum `interpolatePeak` returns a value strictly within
half a bin of `peak_bin`, equal to it at the edges, and displaced towards the
larger neighbour when displaced at all. -/
theorem interpolatePeak_offset (spectrum : List K) (peak_bin : Int)
    (hne : 1 ≤ spectrum.length) (hsize : spectrum.length < 2 ^ 64) :
    ∃ v, interpolatePeak spectrum peak_bin = some v ∧
      |v - (peak_bin : K)| < 1 / 2 ∧
      ((peak_bin ≤ 0 ∨ peak_bin ≥ (spectrum.length : Int) - 1) → v = (peak_bin : K)) ∧
      (v ≠ (peak_bin : K) →
        (((peak_bin : K) < v ↔
            binValue spectrum (peak_bin - 1) < binValue spectrum (peak_bin + 1)) ∧
         (v < (peak_bin : K) ↔
            binValue spectrum (peak_bin + 1) < binValue spectrum (peak_bin - 1)))) := by
  have hhalf : (0 : K) < 1 / 2 := by norm_num
  by_cases hedge : peak_bin ≤ 0 ∨ peak_bin ≥ (spectrum.length : Int) - 1
  · refine ⟨_, interpolatePeak_edge spectrum peak_bin hne hsize hedge, ?_, fun _ => rfl,
      fun h => absurd rfl h⟩
    rw [sub_self, abs_zero]
    exact hhalf
  · rw [interpolatePeak_interior spectrum peak_bin (by omega) (by omega) hsize]
    split
    · refine ⟨_, rfl, ?_, fun _ => rfl, fun h => absurd rfl h⟩
      rw [sub_self, abs_zero]
      exact hhalf
    · rename_i hguard
      push_neg at hguard
      obtain ⟨-, -, h1, h2⟩ := hguard
      obtain ⟨hb, hpos, hneg⟩ := delta_bound _ _ _ h1 h2
      refine ⟨_, rfl, ?_, fun h => absurd h hedge, fun _ => ⟨?_, ?_⟩⟩
      · rw [add_sub_cancel_left]
        exact hb
      · rw [lt_add_iff_pos_right]
        exact hpos
      · rw [add_lt_iff_neg_left]
        exact hneg

theorem blindPeak_range (spectrum : List K) :
    1 ≤ (blindPeak spectrum).2 ∧ (blindPeak spectrum).2 ≤ 255 := by
  obtain ⟨-, -, hcase⟩ := blindPeak_spec spectrum
  rcases hcase with ⟨heq, -⟩ | ⟨h1, h2, -⟩
  · rw [heq]
    exact ⟨le_refl _, by norm_num⟩
  · exact ⟨h1, h2⟩

theorem scaled_offset (e b res : K) (hres : 0 < res) (h : |e - b| < 1 / 2) :
    |e * res - b * res| < 1 / 2 * res := by
  rw [← sub_mul, abs_mul, abs_of_pos hres]
  exact mul_lt_mul_of_pos_right h hres

end Offset

section SelfTestSignal

variable {K C : Type} [LinearOrderedField K]

theorem selfTestSignal_length (ops : MathOps K C) (sin : K → K) (fps target_hz : K) :
    (selfTestSignal ops sin fps target_hz).length = 512 := by
  simp [selfTestSignal, FFT_SIZE]

end SelfTestSignal

section BlindReport

variable {K C : Type} [LinearOrderedField K] [FloorRing K] [CommRing C]

/-- The blind-mode report: the refined bin lies strictly within half a bin of
the located bin `max_bin`, which is in `[1, 255]`; at bin 255 nothing is refined. -/
theorem blind_report (ops : MathOps K C) (raw_signal : List K) (config : ScanConfig K)
    (hlen : 512 ≤ raw_signal.length) (hrpm : config.target_rpm ≤ 0) :
    ∃ (r : DSPResult K) (e : K),
      analyze ops raw_signal config = some r ∧
      r.spectrum.length = 256 ∧
      interpolatePeak r.spectrum (blindPeak r.spectrum).2 = some e ∧
      r.dominant_frequency = some (e * (config.actual_fps / 512)) ∧
      1 ≤ (blindPeak r.spectrum).2 ∧ (blindPeak r.spectrum).2 ≤ 255 ∧
      |e - (((blindPeak r.spectrum).2 : Int) : K)| < 1 / 2 ∧
      ((blindPeak r.spectrum).2 = 255 → e = 255) := by
  obtain ⟨e, hint, he⟩ := analyze_blind ops raw_signal config hlen hrpm
  have h512 : (FFT_SIZE : K) = 512 := by norm_num [FFT_SIZE]
  rw [h512] at he
  have hl := magnitudeSpectrum_length ops (raw_signal.drop (raw_signal.length - FFT_SIZE))
  obtain ⟨v, hv, hb, hedge, -⟩ := interpolatePeak_offset
    (magnitudeSpectrum ops (raw_signal.drop (raw_signal.length - FFT_SIZE)))
    (blindPeak (magnitudeSpectrum ops (raw_signal.drop (raw_signal.length - FFT_SIZE)))).2
    (by rw [hl]; norm_num) (by rw [hl]; norm_num)
  have hve : v = e := Option.some.inj (hv.symm.trans hint)
  subst hve
  obtain ⟨h1, h2⟩ := blindPeak_range
    (magnitudeSpectrum ops (raw_signal.drop (raw_signal.length - FFT_SIZE)))
  refine ⟨_, v, he, hl, hint, rfl, h1, h2, hb, ?_⟩
  intro h255
  have h255b : (blindPeak (magnitudeSpectrum ops
      (raw_signal.drop (raw_signal.length - FFT_SIZE)))).2 = 255 := h255
  have := hedge (Or.inr (by rw [hl, h255b]; norm_num))
  rw [this, h255b]
  norm_num

end BlindReport

section RefinementClaims

variable {K C : Type} [LinearOrderedField K] [FloorRing K] [CommRing C]

/-- C17: for every spectrum the method is handed and every `peak_bin`, the
value returned by `interpolatePeak` differs from `peak_bin` by strictly less
than half a bin, and when it differs it lies on the side of the larger of the
two neighbours; in blind mode with `actual_fps > 0` the reported dominant
frequency lies strictly within half a frequency-resolution unit of
`max_bin * actual_fps / 512`.  The method is private and `analyze` hands it the
256-bin spectrum only; the first part uses no more of that than a vector with
at least one entry, the second part is about `analyze` itself. -/
theorem interpolatePeak_within_half_bin :
    (∀ (spectrum : List K) (peak_bin : Int), 1 ≤ spectrum.length →
      spectrum.length < 2 ^ 64 →
      ∃ v, interpolatePeak spectrum peak_bin = some v ∧
        |v - (peak_bin : K)| < 1 / 2 ∧
        (v ≠ (peak_bin : K) →
          (((peak_bin : K) < v ↔
              binValue spectrum (peak_bin - 1) < binValue spectrum (peak_bin + 1)) ∧
           (v < (peak_bin : K) ↔
              binValue spectrum (peak_bin + 1) < binValue spectrum (peak_bin - 1))))) ∧
    (∀ (ops : MathOps K C) (raw_signal : List K) (config : ScanConfig K),
      512 ≤ raw_signal.length → config.target_rpm ≤ 0 → 0 < config.actual_fps →
      ∃ (r : DSPResult K) (d : K),
        analyze ops raw_signal config = some r ∧ r.dominant_frequency = some d ∧
        |d - (((blindPeak r.spectrum).2 : Int) : K) * (config.actual_fps / 512)|
          < 1 / 2 * (config.actual_fps / 512)) := by
  constructor
  · intro spectrum peak_bin hne hsize
    obtain ⟨v, hv, hb, -, hdir⟩ := interpolatePeak_offset spectrum peak_bin hne hsize
    exact ⟨v, hv, hb, hdir⟩
  · intro ops raw_signal config hlen hrpm hfps
    obtain ⟨r, e, hr, -, -, hd, -, -, hb, -⟩ := blind_report ops raw_signal config hlen hrpm
    exact ⟨r, _, hr, hd, scaled_offset e _ _ (by positivity) hb⟩

end RefinementClaims

section RefinementInstances

theorem interpolatePeak_within_half_bin_witness :
    1 ≤ ([1, 3, 2] : List ℚ).length ∧ ([1, 3, 2] : List ℚ).length < 2 ^ 64 ∧
    ∃ v : ℚ, interpolatePeak ([1, 3, 2] : List ℚ) 1 = some v ∧
      |v - ((1 : Int) : ℚ)| < 1 / 2 := by
  refine ⟨by simp, by simp, ?_⟩
  obtain ⟨v, hv, hb, -⟩ := (interpolatePeak_within_half_bin (K := ℚ) (C := ℚ)).1
    [1, 3, 2] 1 (by simp) (by simp)
  exact ⟨v, hv, hb⟩

/-- The self-test near the Nyquist frequency: at `fps = 512` and `f = 255.75`
(strictly between 0 and `fps / 2`, not a multiple of `fps / 512 = 1`) the
report cannot be both within one unit of `f` and strictly closer to `f` than
the unrefined estimate: the located bin is at most 255, bin 255 is not refined,
and a lower bin reports less than 254.5. -/
theorem selfTest_near_nyquist :
    (0 : ℝ) < 512 ∧ (0 : ℝ) < 1023 / 4 ∧ (1023 / 4 : ℝ) < 512 / 2 ∧
    (∀ n : Int, (1023 / 4 : ℝ) ≠ (n : ℝ) * (512 / 512)) ∧
    ¬ ∃ (r : DSPResult ℝ) (d : ℝ),
      analyze (⟨Real.pi, Real.cos, fun rho theta => (rho : ℂ) * Complex.exp ((theta : ℂ) * Complex.I),
      fun z => Complex.abs z, fun re im => ⟨re, im⟩⟩ : MathOps ℝ ℂ)
        (selfTestSignal (⟨Real.pi, Real.cos, fun rho theta => (rho : ℂ) * Complex.exp ((theta : ℂ) * Complex.I),
      fun z => Complex.abs z, fun re im => ⟨re, im⟩⟩ : MathOps ℝ ℂ)
          Real.sin 512 (1023 / 4)) { actual_fps := 512, target_rpm := 0 } = some r ∧
      r.dominant_frequency = some d ∧
      |d - 1023 / 4| ≤ 512 / 512 ∧
      |d - 1023 / 4| < |(((blindPeak r.spectrum).2 : Int) : ℝ) * (512 / 512) - 1023 / 4| := by
  refine ⟨by norm_num, by norm_num, by norm_num, ?_, ?_⟩
  · intro n hn
    have h4 : (1023 : ℝ) = 4 * (n : ℝ) := by
      have := hn
      field_simp at this
      linarith
    have h5 : (1023 : Int) = 4 * n := by exact_mod_cast h4
    omega
  · rintro ⟨r, d, hr, hd, hwithin, hcloser⟩
    obtain ⟨r2, e, hr2, -, -, hd2, h1, h2, hb, h255⟩ := blind_report (⟨Real.pi, Real.cos, fun rho theta => (rho : ℂ) * Complex.exp ((theta : ℂ) * Complex.I),
      fun z => Complex.abs z, fun re im => ⟨re, im⟩⟩ : MathOps ℝ ℂ)
      (selfTestSignal (⟨Real.pi, Real.cos, fun rho theta => (rho : ℂ) * Complex.exp ((theta : ℂ) * Complex.I),
      fun z => Complex.abs z, fun re im => ⟨re, im⟩⟩ : MathOps ℝ ℂ)
        Real.sin 512 (1023 / 4)) { actual_fps := 512, target_rpm := 0 }
      (by rw [selfTestSignal_length]) (le_refl _)
    have hrr : r2 = r := Option.some.inj (hr2.symm.trans hr)
    subst hrr
    have hde : d = e := by
      have := Option.some.inj (hd.symm.trans hd2)
      rw [this]
      norm_num
    subst hde
    by_cases hlast : (blindPeak r2.spectrum).2 = 255
    · rw [h255 hlast, hlast] at hcloser
      norm_num at hcloser
    · have hle : (blindPeak r2.spectrum).2 ≤ 254 := by omega
      have hle2 : (((blindPeak r2.spectrum).2 : Int) : ℝ) ≤ 254 := by exact_mod_cast hle
      have hb1 := (abs_lt.mp hb).2
      have hw := (abs_le.mp hwithin).1
      norm_num at hw
      linarith

end RefinementInstances

/-! The spectrum indices touched by the analysis -/

section ReadBounds

variable {K : Type}

theorem mem_loopRange (lo hi i : Int) : i ∈ loopRange lo hi ↔ lo ≤ i ∧ i ≤ hi := by
  simp only [loopRange, List.mem_map, List.bind_eq_flatMap, List.mem_flatMap, List.mem_range,
    List.pure_def, List.mem_singleton]
  constructor
  · rintro ⟨a, ⟨j, hj, rfl⟩, rfl⟩
    omega
  · rintro ⟨h1, h2⟩
    exact ⟨i - lo, ⟨(i - lo).toNat, by omega, by omega⟩, by omega⟩

/-- The search window of `findPeakAmplitude` lies inside `[1, len - 1]`. -/
theorem findPeakReads_bounds (spectrum : List K) (expected_bin i : Int)
    (h : i ∈ findPeakReads spectrum expected_bin) :
    1 ≤ i ∧ i ≤ (spectrum.length : Int) - 1 := by
  unfold findPeakReads at h
  rw [mem_loopRange] at h
  omega

/-- The three reads of `interpolatePeak` happen only strictly inside a
non-empty spectrum. -/
theorem interpolateReads_bounds (spectrum : List K) (peak_bin i : Int)
    (h1 : 1 ≤ spectrum.length) (h2 : spectrum.length < 2 ^ 64)
    (h : i ∈ interpolateReads spectrum peak_bin) :
    (0 < peak_bin ∧ peak_bin < (spectrum.length : Int) - 1) ∧
    (i = peak_bin - 1 ∨ i = peak_bin ∨ i = peak_bin + 1) := by
  have hs := sizeMinusOne_pos spectrum h1 h2
  unfold interpolateReads at h
  rw [hs] at h
  split at h
  · exact absurd h (List.not_mem_nil _)
  · rename_i hedge
    simp only [List.mem_cons, List.mem_singleton, List.not_mem_nil, or_false] at h
    exact ⟨by omega, h⟩

end ReadBounds

section ReadClaims

variable {K C : Type} [LinearOrderedField K] [FloorRing K] [CommRing C]

/-- C19: every spectrum index `analyze` touches is in `[0, 256)`.  Passing the
Nyquist guard of harmonic mode forces `actual_fps > 0` and the expected 1x bin
into `[0, 218]`; on the 256-bin spectrum `findPeakAmplitude` reads only bins in
`[1, 255]` whatever the expected bin, `interpolatePeak` reads only
`peak_bin - 1`, `peak_bin`, `peak_bin + 1` and only when `0 < peak_bin < 255`;
the blind-mode `max_bin` lies in `[1, 255]`; and `analyze` always returns. -/
theorem analyze_reads_in_bounds (ops : MathOps K C) (raw_signal : List K)
    (config : ScanConfig K) :
    (∀ i ∈ analyzeReads ops raw_signal config, 0 ≤ i ∧ i < 256) ∧
    (∃ r, analyze ops raw_signal config = some r) ∧
    (0 < config.target_rpm →
      ¬ config.target_rpm / 60 ≥ config.actual_fps / 2 * 0.85 →
      0 < config.actual_fps ∧
      0 ≤ cRound (config.target_rpm / 60 / (config.actual_fps / 512)) ∧
      cRound (config.target_rpm / 60 / (config.actual_fps / 512)) ≤ 218) ∧
    (∀ (spectrum : List K) (expected_bin : Int), spectrum.length = 256 →
      ∀ i ∈ findPeakReads spectrum expected_bin, 1 ≤ i ∧ i ≤ 255) ∧
    (∀ (spectrum : List K) (peak_bin : Int), spectrum.length = 256 →
      ∀ i ∈ interpolateReads spectrum peak_bin,
        (0 < peak_bin ∧ peak_bin < 255) ∧
        (i = peak_bin - 1 ∨ i = peak_bin ∨ i = peak_bin + 1)) ∧
    (∀ spectrum : List K,
      1 ≤ (blindPeak spectrum).2 ∧ (blindPeak spectrum).2 ≤ 255) := by
  have h60 : (60.0 : K) = 60 := by norm_num
  have h2 : (2.0 : K) = 2 := by norm_num
  have h512 : (FFT_SIZE : K) = 512 := by norm_num [FFT_SIZE]
  have hfind : ∀ (spectrum : List K) (expected_bin : Int), spectrum.length = 256 →
      ∀ i ∈ findPeakReads spectrum expected_bin, 1 ≤ i ∧ i ≤ 255 := by
    intro spectrum e hl i hi
    have := findPeakReads_bounds spectrum e i hi
    rw [hl] at this
    omega
  have hinterp : ∀ (spectrum : List K) (peak_bin : Int), spectrum.length = 256 →
      ∀ i ∈ interpolateReads spectrum peak_bin,
        (0 < peak_bin ∧ peak_bin < 255) ∧
        (i = peak_bin - 1 ∨ i = peak_bin ∨ i = peak_bin + 1) := by
    intro spectrum b hl i hi
    have := interpolateReads_bounds spectrum b i (by rw [hl]; norm_num)
      (by rw [hl]; norm_num) hi
    rw [hl] at this
    exact ⟨⟨this.1.1, by omega⟩, this.2⟩
  have hmag : ∀ i ∈ (List.range (FFT_SIZE / 2)).map (fun (k : Nat) => (k : Int)),
      0 ≤ i ∧ i < 256 := by
    intro i hi
    simp only [List.mem_map, List.mem_range, FFT_SIZE] at hi
    obtain ⟨k, hk, rfl⟩ := hi
    omega
  have hl := magnitudeSpectrum_length ops (raw_signal.drop (raw_signal.length - FFT_SIZE))
  refine ⟨?_, ?_, ?_, hfind, hinterp, blindPeak_range⟩
  · intro i hi
    unfold analyzeReads at hi
    split at hi
    · exact absurd hi (List.not_mem_nil _)
    · simp only at hi
      split at hi
      · simp only [List.mem_append] at hi
        rcases hi with (hi | hi) | hi
        · exact hmag i hi
        · rw [mem_loopRange] at hi
          simp only [FFT_SIZE] at hi
          omega
        · obtain ⟨⟨hb1, hb2⟩, hcase⟩ := hinterp _ _ hl i hi
          omega
      · split at hi
        · exact hmag i hi
        · split at hi
          · simp only [List.mem_append] at hi
            rcases hi with (((hi | hi) | hi) | hi) | hi
            · exact hmag i hi
            · have := hfind _ _ hl i hi
              omega
            · have := hfind _ _ hl i hi
              omega
            · have := hfind _ _ hl i hi
              omega
            · obtain ⟨⟨hb1, hb2⟩, hcase⟩ := hinterp _ _ hl i hi
              omega
          · exact hmag i hi
  · obtain ⟨r, hr, -⟩ := analyze_total ops raw_signal config
    exact ⟨r, hr⟩
  · intro hrpm hg
    have hg2 : ¬ config.target_rpm / 60.0 ≥ config.actual_fps / 2.0 * 0.85 := by
      rw [h60, h2]
      exact hg
    obtain ⟨hf, -, -⟩ := guard_facts config hrpm hg2 1 one_pos
    obtain ⟨⟨ha, hb⟩, -, -⟩ := expected_bins config hrpm hg2
    rw [h60, h512] at ha hb
    exact ⟨hf, ha, hb⟩

end ReadClaims

/-! A buffer with a comb spectrum -/

section ListSums

variable {K : Type} [LinearOrderedField K]

theorem sum_map_range (f : Nat → K) (n : Nat) :
    ((List.range n).map f).sum = ∑ i in Finset.range n, f i := by
  induction n with
  | zero => simp
  | succ n ih =>
    rw [List.range_succ, List.map_append, List.sum_append, ih, Finset.sum_range_succ]
    simp

theorem sum_map_filter {α : Type} (l : List α) (p : α → Bool) (g : α → K) :
    ((l.filter p).map g).sum = (l.map (fun a => if p a then g a else 0)).sum := by
  induction l with
  | nil => simp
  | cons a l ih =>
    by_cases h : p a
    · simp [List.filter_cons, h, ih]
    · simp [List.filter_cons, h, ih]

theorem length_filter_sum {α : Type} (l : List α) (p : α → Bool) :
    ((l.filter p).length : K) = (l.map (fun a => if p a then (1 : K) else 0)).sum := by
  rw [← sum_map_filter l p (fun _ => (1 : K))]
  simp

/-- The sum over `k < 4 n` of `c` at the multiples of four and `0` elsewhere. -/
theorem sum_comb (c : K) (n : Nat) :
    ∑ k in Finset.range (4 * n), (if 4 ∣ k then c else 0) = (n : K) * c := by
  induction n with
  | zero => simp
  | succ n ih =>
    rw [show 4 * (n + 1) = 4 * n + 1 + 1 + 1 + 1 by ring, Finset.sum_range_succ,
      Finset.sum_range_succ, Finset.sum_range_succ, Finset.sum_range_succ, ih,
      if_pos (by omega), if_neg (by omega), if_neg (by omega), if_neg (by omega)]
    push_cast
    ring

end ListSums

section Hann

theorem hann_zero : (0.5 : ℝ) * (1.0 - Real.cos (2.0 * Real.pi * ((0 : Nat) : ℝ)
    / ((FFT_SIZE - 1 : Nat) : ℝ))) = 0 := by
  norm_num

/-- The Hann weight is non-zero strictly inside the window. -/
theorem hann_ne_zero (i : Nat) (h0 : 0 < i) (h1 : i < 511) :
    (0.5 : ℝ) * (1.0 - Real.cos (2.0 * Real.pi * (i : ℝ) / ((FFT_SIZE - 1 : Nat) : ℝ))) ≠ 0 := by
  have h511 : ((FFT_SIZE - 1 : Nat) : ℝ) = 511 := by norm_num [FFT_SIZE]
  rw [h511]
  intro h
  have hcos : Real.cos (2.0 * Real.pi * (i : ℝ) / 511) = 1 := by
    norm_num at h
    linarith
  obtain ⟨n, hn⟩ := (Real.cos_eq_one_iff _).mp hcos
  have hpi : (0 : ℝ) < Real.pi := Real.pi_pos
  have h2 : (n : ℝ) * 511 = (i : ℝ) := by
    have : (n : ℝ) * (2 * Real.pi) * 511 = 2 * Real.pi * (i : ℝ) := by
      rw [hn]
      norm_num
    have h3 : (2 * Real.pi) * ((n : ℝ) * 511) = (2 * Real.pi) * (i : ℝ) := by linarith
    exact mul_left_cancel₀ (by positivity) h3
  have h4 : n * 511 = (i : Int) := by exact_mod_cast h2
  omega

end Hann

section Comb

variable {K C : Type} [LinearOrderedField K]

theorem combSignal_length (ops : MathOps K C) : (combSignal ops).length = 512 := by
  simp [combSignal, FFT_SIZE]

theorem comb_sum_general (h : Nat → K) :
    ∑ i in Finset.range 512,
      (if i = 0 then -(h 1 + h 129 + h 257 + h 385)
       else if i = 1 ∨ i = 129 ∨ i = 257 ∨ i = 385 then h i else 0) = 0 := by
  rw [show 512 = 511 + 1 from rfl, Finset.sum_range_succ']
  simp only [if_pos, Nat.add_eq_zero, one_ne_zero, and_false, if_false]
  have hsplit : ∀ i : Nat,
      (if i + 1 = 1 ∨ i + 1 = 129 ∨ i + 1 = 257 ∨ i + 1 = 385 then h (i + 1) else 0)
      = (if i = 0 then h 1 else 0) + (if i = 128 then h 129 else 0)
        + (if i = 256 then h 257 else 0) + (if i = 384 then h 385 else 0) := by
    intro i
    by_cases h0 : i = 0
    · subst h0; simp
    · by_cases h1 : i = 128
      · subst h1; simp
      · by_cases h2 : i = 256
        · subst h2; simp
        · by_cases h3 : i = 384
          · subst h3; simp
          · rw [if_neg (by omega), if_neg h0, if_neg h1, if_neg h2, if_neg h3]
            simp
  rw [Finset.sum_congr rfl (fun i _ => hsplit i)]
  simp only [Finset.sum_add_distrib, Finset.sum_ite_eq', Finset.mem_range]
  norm_num
  ring

/-- The samples of `combSignal` add up to zero. -/
theorem combSignal_sum (ops : MathOps K C) : (combSignal ops).sum = 0 := by
  unfold combSignal
  simp only []
  rw [sum_map_range]
  exact comb_sum_general _

end Comb

section CombSpectrum

/-- Under the Hann window the comb buffer becomes `1` at the indices 1, 129,
257, 385 and `0` elsewhere. -/
theorem combSignal_windowed (ops : MathOps ℝ ℂ) (hstd : ops.Standard) :
    windowed ops (combSignal ops)
      = (List.range 512).map (fun i =>
          if i = 1 ∨ i = 129 ∨ i = 257 ∨ i = 385 then (1 : ℂ) else 0) := by
  obtain ⟨hpi, hcos, -, -, hcomplex⟩ := hstd
  have hmean : (combSignal ops).foldl (· + ·) 0.0 / (FFT_SIZE : ℝ) = 0 := by
    rw [noise_sum_eq, combSignal_sum, zero_div]
  unfold windowed
  simp only [hmean, sub_zero]
  apply List.map_congr_left
  intro i hi
  have hi2 : i < 512 := by simpa [FFT_SIZE] using hi
  have hget : (combSignal ops).getD i 0
      = (if i = 0 then -(1 / (0.5 * (1.0 - ops.cos (2.0 * ops.pi * ((1 : Nat) : ℝ)
              / ((FFT_SIZE - 1 : Nat) : ℝ))))
            + 1 / (0.5 * (1.0 - ops.cos (2.0 * ops.pi * ((129 : Nat) : ℝ)
              / ((FFT_SIZE - 1 : Nat) : ℝ))))
            + 1 / (0.5 * (1.0 - ops.cos (2.0 * ops.pi * ((257 : Nat) : ℝ)
              / ((FFT_SIZE - 1 : Nat) : ℝ))))
            + 1 / (0.5 * (1.0 - ops.cos (2.0 * ops.pi * ((385 : Nat) : ℝ)
              / ((FFT_SIZE - 1 : Nat) : ℝ)))))
         else if i = 1 ∨ i = 129 ∨ i = 257 ∨ i = 385 then
           1 / (0.5 * (1.0 - ops.cos (2.0 * ops.pi * (i : ℝ) / ((FFT_SIZE - 1 : Nat) : ℝ))))
         else 0) := by
    unfold combSignal
    exact getD_map_range _ _ _ hi2
  rw [hget, hcomplex]
  simp only [hpi, hcos]
  have h00 : (0.0 : ℝ) = 0 := by norm_num
  by_cases h0 : i = 0
  · subst h0
    rw [if_pos rfl, if_neg (by omega), hann_zero, mul_zero, h00]
    rfl
  · rw [if_neg h0]
    by_cases hS : i = 1 ∨ i = 129 ∨ i = 257 ∨ i = 385
    · rw [if_pos hS, if_pos hS, one_div,
        inv_mul_cancel₀ (hann_ne_zero i (by omega) (by omega)), h00]
      rfl
    · rw [if_neg hS, if_neg hS, zero_mul, h00]
      rfl

theorem comb_pick (F : Nat → ℂ) :
    ∑ j in Finset.range 512,
      (if j = 1 ∨ j = 129 ∨ j = 257 ∨ j = 385 then (1 : ℂ) else 0) * F j
      = F 1 + F 129 + F 257 + F 385 := by
  have hsplit : ∀ j : Nat,
      (if j = 1 ∨ j = 129 ∨ j = 257 ∨ j = 385 then (1 : ℂ) else 0) * F j
      = (if j = 1 then F 1 else 0) + (if j = 129 then F 129 else 0)
        + (if j = 257 then F 257 else 0) + (if j = 385 then F 385 else 0) := by
    intro j
    by_cases h0 : j = 1
    · subst h0; simp
    · by_cases h1 : j = 129
      · subst h1; simp
      · by_cases h2 : j = 257
        · subst h2; simp
        · by_cases h3 : j = 385
          · subst h3; simp
          · rw [if_neg (by omega), if_neg h0, if_neg h1, if_neg h2, if_neg h3]
            simp
  rw [Finset.sum_congr rfl (fun j _ => hsplit j)]
  simp only [Finset.sum_add_distrib, Finset.sum_ite_eq', Finset.mem_range]
  norm_num

/-- A fourth root of unity other than 1 has `1 + a + a^2 + a^3 = 0`. -/
theorem geom_four (a : ℂ) (h4 : a * a * a * a = 1) (h1 : a ≠ 1) :
    1 + a + a * a + a * a * a = 0 := by
  have h : (a - 1) * (1 + a + a * a + a * a * a) = 0 := by
    have : (a - 1) * (1 + a + a * a + a * a * a) = a * a * a * a - 1 := by ring
    rw [this, h4, sub_self]
  rcases mul_eq_zero.mp h with h | h
  · exact absurd (sub_eq_zero.mp h) h1
  · exact h

theorem kernel_quarter_ne_one (k : Nat) (hk : ¬ 4 ∣ k) :
    Complex.exp (-2 * Real.pi * Complex.I * ((128 * k : Nat) : ℂ) / ((2 ^ 9 : Nat) : ℂ)) ≠ 1 := by
  intro h
  obtain ⟨n, hn⟩ := Complex.exp_eq_one_iff.mp h
  have hpi : (Real.pi : ℂ) ≠ 0 := by exact_mod_cast Real.pi_ne_zero
  have h2 : -(k : ℂ) = 4 * (n : ℂ) := by
    have h3 : (2 * (Real.pi : ℂ) * Complex.I) * (-(k : ℂ)) = (2 * Real.pi * Complex.I) * (4 * (n : ℂ)) := by
      have : -2 * (Real.pi : ℂ) * Complex.I * ((128 * k : Nat) : ℂ) / ((2 ^ 9 : Nat) : ℂ)
          = (2 * Real.pi * Complex.I) * (-(k : ℂ)) / 4 := by
        push_cast
        ring
      rw [this] at hn
      field_simp at hn
      linear_combination hn
    exact mul_left_cancel₀ (by simp [hpi, Complex.I_ne_zero]) h3
  have h5 : -(k : Int) = 4 * n := by exact_mod_cast h2
  exact hk (by omega)

/-- The transform of the windowed comb buffer: of modulus 4 at the multiples
of four, zero at every other bin. -/
theorem comb_fft_abs (ops : MathOps ℝ ℂ) (hstd : ops.Standard) (k : Nat) (hk : k < 512) :
    Complex.abs ((computeFFT ops (windowed ops (combSignal ops))).getD k 0)
      = if 4 ∣ k then 4 else 0 := by
  have hstd2 := hstd
  obtain ⟨hpi, -, hpolar, -, -⟩ := hstd2
  rw [combSignal_windowed ops hstd,
    computeFFT_complex ops hpi hpolar 9 _ (by simp) k (by norm_num; exact hk)]
  have hsum : ∀ F : Nat → ℂ,
      ∑ j in Finset.range (2 ^ 9),
        ((List.range 512).map (fun i =>
          if i = 1 ∨ i = 129 ∨ i = 257 ∨ i = 385 then (1 : ℂ) else 0)).getD j 0 * F j
      = F 1 + F 129 + F 257 + F 385 := by
    intro F
    rw [← comb_pick F]
    apply Finset.sum_congr (by norm_num)
    intro j hj
    rw [getD_map_range _ _ _ (by simpa using hj)]
  rw [hsum (fun j => Complex.exp (-2 * Real.pi * Complex.I * ((j * k : Nat) : ℂ)
    / ((2 ^ 9 : Nat) : ℂ)))]
  have e1 : 1 * k = k := by ring
  have e2 : 129 * k = k + 128 * k := by ring
  have e3 : 257 * k = k + (128 * k + 128 * k) := by ring
  have e4 : 385 * k = k + (128 * k + (128 * k + 128 * k)) := by ring
  rw [e1, e2, e3, e4, kernel_add, kernel_add, kernel_add, kernel_add, kernel_add, kernel_add]
  have hfour : Complex.exp (-2 * Real.pi * Complex.I * ((128 * k : Nat) : ℂ)
        / ((2 ^ 9 : Nat) : ℂ))
      * Complex.exp (-2 * Real.pi * Complex.I * ((128 * k : Nat) : ℂ) / ((2 ^ 9 : Nat) : ℂ))
      * Complex.exp (-2 * Real.pi * Complex.I * ((128 * k : Nat) : ℂ) / ((2 ^ 9 : Nat) : ℂ))
      * Complex.exp (-2 * Real.pi * Complex.I * ((128 * k : Nat) : ℂ) / ((2 ^ 9 : Nat) : ℂ))
      = 1 := by
    rw [← kernel_add, ← kernel_add, ← kernel_add,
      show 128 * k + 128 * k + 128 * k + 128 * k = 2 ^ 9 * k by ring, kernel_one]
  by_cases hdiv : 4 ∣ k
  · rw [if_pos hdiv]
    obtain ⟨q, rfl⟩ := hdiv
    have hone : Complex.exp (-2 * Real.pi * Complex.I * ((128 * (4 * q) : Nat) : ℂ)
        / ((2 ^ 9 : Nat) : ℂ)) = 1 := by
      rw [show 128 * (4 * q) = 2 ^ 9 * q by ring, kernel_one]
    rw [hone]
    have : Complex.exp (-2 * Real.pi * Complex.I * ((4 * q : Nat) : ℂ) / ((2 ^ 9 : Nat) : ℂ))
        + Complex.exp (-2 * Real.pi * Complex.I * ((4 * q : Nat) : ℂ) / ((2 ^ 9 : Nat) : ℂ)) * 1
        + Complex.exp (-2 * Real.pi * Complex.I * ((4 * q : Nat) : ℂ) / ((2 ^ 9 : Nat) : ℂ))
          * (1 * 1)
        + Complex.exp (-2 * Real.pi * Complex.I * ((4 * q : Nat) : ℂ) / ((2 ^ 9 : Nat) : ℂ))
          * (1 * (1 * 1))
        = 4 * Complex.exp (-2 * Real.pi * Complex.I * ((4 * q : Nat) : ℂ)
          / ((2 ^ 9 : Nat) : ℂ)) := by ring
    rw [this, map_mul, kernel_abs]
    norm_num
  · rw [if_neg hdiv]
    have hzero := geom_four _ hfour (kernel_quarter_ne_one k hdiv)
    have : ∀ (c a : ℂ), c + c * a + c * (a * a) + c * (a * (a * a))
        = c * (1 + a + a * a + a * a * a) := by
      intro c a
      ring
    rw [this, hzero, mul_zero, map_zero]

/-- The spectrum of the comb buffer: `1/64` at the multiples of four, zero at
every other bin. -/
theorem comb_spectrum (ops : MathOps ℝ ℂ) (hstd : ops.Standard) :
    magnitudeSpectrum ops (combSignal ops)
      = (List.range 256).map (fun k => if 4 ∣ k then (1 / 64 : ℝ) else 0) := by
  obtain ⟨-, -, -, hcabs, -⟩ := id hstd
  unfold magnitudeSpectrum
  apply List.map_congr_left
  intro k hk
  have hk2 : k < 256 := by simpa [FFT_SIZE] using hk
  rw [hcabs, comb_fft_abs ops hstd k (by omega)]
  split <;> norm_num [FFT_SIZE]

end CombSpectrum

/-! The reported peak and the noise floor -/

section BinIndex

variable {K : Type} [LinearOrderedField K]

theorem binValue_natCast (spectrum : List K) (b : Nat) :
    binValue spectrum (b : Int) = spectrum.getD b 0 := by
  simp [binValue]

end BinIndex

section Rounding

variable {K : Type} [LinearOrderedField K] [FloorRing K]

theorem cRound_eq (x : K) (n : Int) (h0 : 0 ≤ x) (h1 : (n : K) - 1 / 2 ≤ x)
    (h2 : x < (n : K) + 1 / 2) : cRound x = n := by
  unfold cRound
  rw [if_pos h0, Int.floor_eq_iff]
  constructor <;> linarith

end Rounding

section PeakBin

variable {K C : Type} [LinearOrderedField K] [FloorRing K] [CommRing C]

/-- C14 (amended): for a result of `analyze` whose fault is `NO_FAULT`,
`UNBALANCE`, `MISALIGNMENT` or `LOOSENESS` (and a non-negative complex
magnitude) there is a bin `b` with `spectrum[b] = peak_amplitude` and
`dominant_frequency = interpolatePeak(spectrum, b) * actual_fps / 512`, except
in harmonic mode when the expected 1x bin is 0 and bins 1 and 2 are both zero:
then `peak_amplitude` and `dominant_frequency` are both 0. -/
theorem dominant_from_peak_bin (ops : MathOps K C) (hcabs : ∀ z, 0 ≤ ops.cabs z)
    (raw_signal : List K) (config : ScanConfig K) (r : DSPResult K)
    (hr : analyze ops raw_signal config = some r)
    (hf1 : r.fault ≠ FaultType.UNMEASURABLE)
    (hf2 : r.fault ≠ FaultType.INSUFFICIENT_DATA) :
    (∃ b : Nat, b < 256 ∧ r.peak_amplitude = some (r.spectrum.getD b 0) ∧
      ∃ e, interpolatePeak r.spectrum (b : Int) = some e ∧
        r.dominant_frequency = some (e * config.actual_fps / 512)) ∨
    (0 < config.target_rpm ∧
      cRound (config.target_rpm / 60 / (config.actual_fps / 512)) = 0 ∧
      r.spectrum.getD 1 0 = 0 ∧ r.spectrum.getD 2 0 = 0 ∧
      r.peak_amplitude = some 0 ∧ r.dominant_frequency = some 0) := by
  have h60 : (60.0 : K) = 60 := by norm_num
  have h512 : (FFT_SIZE : K) = 512 := by norm_num [FFT_SIZE]
  have hfreq : ∀ e : K, e * (config.actual_fps / (FFT_SIZE : K))
      = e * config.actual_fps / 512 := by
    intro e
    rw [h512, mul_div_assoc]
  by_cases hlen : raw_signal.length < 512
  · have := analyze_short ops raw_signal config hlen
    rw [this] at hr
    have hr2 := Option.some.inj hr
    rw [← hr2] at hf2
    exact absurd rfl hf2
  · have hlen2 : 512 ≤ raw_signal.length := not_lt.mp hlen
    have hnn := magnitudeSpectrum_nonneg ops hcabs
      (raw_signal.drop (raw_signal.length - FFT_SIZE))
    have hl := magnitudeSpectrum_length ops (raw_signal.drop (raw_signal.length - FFT_SIZE))
    by_cases hrpm : config.target_rpm ≤ 0
    · obtain ⟨e, hint, he⟩ := analyze_blind ops raw_signal config hlen2 hrpm
      rw [he] at hr
      have hr2 := Option.some.inj hr
      obtain ⟨h1, h2, h3, -⟩ := blindPeak_max _ hnn
      left
      rw [← hr2]
      refine ⟨(blindPeak (magnitudeSpectrum ops
        (raw_signal.drop (raw_signal.length - FFT_SIZE)))).2.toNat, by omega, ?_, e, ?_, ?_⟩
      · show some _ = some _
        rw [h3, ← binValue_natCast, Int.toNat_of_nonneg (by omega)]
      · show interpolatePeak _ _ = _
        rw [Int.toNat_of_nonneg (by omega)]
        exact hint
      · show some _ = some _
        rw [hfreq]
    · by_cases hg : config.target_rpm / 60.0 ≥ config.actual_fps / 2.0 * 0.85
      · have := analyze_unmeasurable ops raw_signal config hlen2 (not_le.mp hrpm) hg
        rw [this] at hr
        have hr2 := Option.some.inj hr
        rw [← hr2] at hf1
        exact absurd rfl hf1
      · obtain ⟨e, hint, he⟩ := analyze_harmonic ops raw_signal config hlen2
          (not_le.mp hrpm) hg _ rfl _ _ _ rfl rfl rfl _ rfl
        rw [he] at hr
        have hr2 := Option.some.inj hr
        obtain ⟨⟨hb0, hb218⟩, -, -⟩ := expected_bins config (not_le.mp hrpm) hg
        obtain ⟨-, -, hcase⟩ := findPeakAmplitude_spec
          (magnitudeSpectrum ops (raw_signal.drop (raw_signal.length - FFT_SIZE)))
          (cRound (config.target_rpm / 60.0 / (config.actual_fps / (FFT_SIZE : K))))
        rw [hl] at hcase
        rcases hcase with ⟨heq, hall⟩ | ⟨hw1, hw2, hval, -, -⟩
        · by_cases hzero : cRound (config.target_rpm / 60.0
              / (config.actual_fps / (FFT_SIZE : K))) = 0
          · right
            rw [heq, hzero] at hint
            rw [hzero] at hall
            have hedge := interpolatePeak_edge
              (magnitudeSpectrum ops (raw_signal.drop (raw_signal.length - FFT_SIZE))) 0
              (by rw [hl]; norm_num) (by rw [hl]; norm_num) (Or.inl (le_refl _))
            have he0 : e = 0 := by
              have := Option.some.inj (hint.symm.trans hedge)
              rw [this]
              norm_num
            rw [h60, h512] at hzero
            rw [← hr2]
            refine ⟨not_le.mp hrpm, hzero, ?_, ?_, ?_, ?_⟩
            · have hle := hall 1 (by norm_num) (by norm_num)
              have hge := binValue_nonneg _ hnn 1
              exact le_antisymm hle hge
            · have hle := hall 2 (by norm_num) (by norm_num)
              have hge := binValue_nonneg _ hnn 2
              exact le_antisymm hle hge
            · show some _ = some _
              rw [heq]
            · show some _ = some _
              rw [he0, zero_mul]
          · left
            have hpos : 1 ≤ cRound (config.target_rpm / 60.0
                / (config.actual_fps / (FFT_SIZE : K))) := by omega
            have hv : binValue (magnitudeSpectrum ops
                (raw_signal.drop (raw_signal.length - FFT_SIZE)))
                (cRound (config.target_rpm / 60.0 / (config.actual_fps / (FFT_SIZE : K))))
                = 0 :=
              le_antisymm (hall _ (by omega) (by omega)) (binValue_nonneg _ hnn _)
            rw [heq] at hint
            rw [← hr2]
            refine ⟨(cRound (config.target_rpm / 60.0
              / (config.actual_fps / (FFT_SIZE : K)))).toNat, by omega, ?_, e, ?_, ?_⟩
            · show some _ = some _
              rw [heq, ← binValue_natCast, Int.toNat_of_nonneg (by omega), hv]
            · show interpolatePeak _ _ = _
              rw [Int.toNat_of_nonneg (by omega)]
              exact hint
            · show some _ = some _
              rw [hfreq]
        · left
          rw [← hr2]
          refine ⟨(findPeakAmplitude (magnitudeSpectrum ops
            (raw_signal.drop (raw_signal.length - FFT_SIZE)))
            (cRound (config.target_rpm / 60.0
              / (config.actual_fps / (FFT_SIZE : K))))).2.toNat, by omega, ?_, e, ?_, ?_⟩
          · show some _ = some _
            rw [← binValue_natCast, Int.toNat_of_nonneg (by omega), ← hval]
          · show interpolatePeak _ _ = _
            rw [Int.toNat_of_nonneg (by omega)]
            exact hint
          · show some _ = some _
            rw [hfreq]

end PeakBin

section CombSearch

theorem standard_ops :
    MathOps.Standard (⟨Real.pi, Real.cos, fun rho theta => (rho : ℂ) * Complex.exp ((theta : ℂ) * Complex.I),
      fun z => Complex.abs z, fun re im => ⟨re, im⟩⟩ : MathOps ℝ ℂ) :=
  ⟨rfl, fun _ => rfl, fun _ _ => rfl, fun _ => rfl, fun _ _ => rfl⟩

theorem comb_list_length :
    ((List.range 256).map (fun k => if 4 ∣ k then (1 / 64 : ℝ) else 0)).length = 256 := by
  simp

theorem comb_binValue (i : Int) (h0 : 0 ≤ i) (h1 : i < 256) :
    binValue ((List.range 256).map (fun k => if 4 ∣ k then (1 / 64 : ℝ) else 0)) i
      = if 4 ∣ i.toNat then (1 / 64 : ℝ) else 0 := by
  unfold binValue
  exact getD_map_range _ _ _ (by omega)

theorem comb_getD (k : Nat) (h1 : k < 256) :
    ((List.range 256).map (fun k => if 4 ∣ k then (1 / 64 : ℝ) else 0)).getD k 0
      = if 4 ∣ k then (1 / 64 : ℝ) else 0 :=
  getD_map_range _ _ _ h1

theorem comb_list_sum :
    ((List.range 256).map (fun k => if 4 ∣ k then (1 / 64 : ℝ) else 0)).sum = 1 := by
  rw [sum_map_range, show 256 = 4 * 64 from rfl, sum_comb]
  norm_num

theorem comb_find_zero :
    findPeakAmplitude ((List.range 256).map (fun k => if 4 ∣ k then (1 / 64 : ℝ) else 0)) 0
      = (0, 0) := by
  obtain ⟨-, -, hcase⟩ := findPeakAmplitude_spec
    ((List.range 256).map (fun k => if 4 ∣ k then (1 / 64 : ℝ) else 0)) 0
  rw [comb_list_length] at hcase
  rcases hcase with ⟨heq, -⟩ | ⟨hb1, hb2, hval, hpos, -⟩
  · exact heq
  · exfalso
    have hb : (findPeakAmplitude
        ((List.range 256).map (fun k => if 4 ∣ k then (1 / 64 : ℝ) else 0)) 0).2 = 1 ∨
        (findPeakAmplitude
        ((List.range 256).map (fun k => if 4 ∣ k then (1 / 64 : ℝ) else 0)) 0).2 = 2 := by
      omega
    rw [hval] at hpos
    rcases hb with hb | hb <;>
      rw [hb, comb_binValue _ (by norm_num) (by norm_num), if_neg (by decide)] at hpos <;>
      exact lt_irrefl _ hpos

theorem comb_find_four (e : Int) (he : e = 2 ∨ e = 4 ∨ e = 6) :
    findPeakAmplitude ((List.range 256).map (fun k => if 4 ∣ k then (1 / 64 : ℝ) else 0)) e
      = (1 / 64, 4) := by
  obtain ⟨-, -, hcase⟩ := findPeakAmplitude_spec
    ((List.range 256).map (fun k => if 4 ∣ k then (1 / 64 : ℝ) else 0)) e
  rw [comb_list_length] at hcase
  have h4 : binValue ((List.range 256).map (fun k => if 4 ∣ k then (1 / 64 : ℝ) else 0)) 4
      = 1 / 64 := by
    rw [comb_binValue _ (by norm_num) (by norm_num), if_pos (by decide)]
  rcases hcase with ⟨-, hall⟩ | ⟨hb1, hb2, hval, hpos, hfirst⟩
  · exfalso
    have := hall 4 (by omega) (by omega)
    rw [h4] at this
    norm_num at this
  · have hrange : 1 ≤ (findPeakAmplitude
        ((List.range 256).map (fun k => if 4 ∣ k then (1 / 64 : ℝ) else 0)) e).2 ∧
        (findPeakAmplitude
        ((List.range 256).map (fun k => if 4 ∣ k then (1 / 64 : ℝ) else 0)) e).2 ≤ 8 := by
      omega
    have hdiv : 4 ∣ (findPeakAmplitude
        ((List.range 256).map (fun k => if 4 ∣ k then (1 / 64 : ℝ) else 0)) e).2.toNat := by
      by_contra hnd
      rw [hval, comb_binValue _ (by omega) (by omega), if_neg hnd] at hpos
      exact lt_irrefl _ hpos
    have hb : (findPeakAmplitude
        ((List.range 256).map (fun k => if 4 ∣ k then (1 / 64 : ℝ) else 0)) e).2 = 4 := by
      by_contra hne
      have h8 : (findPeakAmplitude
          ((List.range 256).map (fun k => if 4 ∣ k then (1 / 64 : ℝ) else 0)) e).2 = 8 := by
        omega
      have hlt := hfirst 4 (by omega) (by omega)
      rw [hval, h8, h4, comb_binValue _ (by norm_num) (by norm_num), if_pos (by decide)] at hlt
      exact lt_irrefl _ hlt
    apply Prod.ext
    · show (findPeakAmplitude _ e).1 = 1 / 64
      rw [hval, hb, h4]
    · exact hb

theorem comb_mean_excluding :
    meanExcluding ((List.range 256).map (fun k => if 4 ∣ k then (1 / 64 : ℝ) else 0))
      [4, 4, 4] = 21 / 5440 := by
  have hterm : ∀ k ∈ Finset.range 256,
      (if decide ((k : Int) ∉ [4, 4, 4]) = true then
        ((List.range 256).map (fun k => if 4 ∣ k then (1 / 64 : ℝ) else 0)).getD k 0 else 0)
      = (if 4 ∣ k then (1 / 64 : ℝ) else 0) - (if k = 4 then (1 / 64 : ℝ) else 0) := by
    intro k hk
    rw [comb_getD k (Finset.mem_range.mp hk)]
    by_cases h4 : k = 4
    · subst h4
      simp
    · have : (k : Int) ∉ [4, 4, 4] := by
        simp only [List.mem_cons, List.mem_singleton, List.not_mem_nil, or_false, or_self]
        omega
      simp [this, h4]
  have hcount : ∀ k ∈ Finset.range 256,
      (if decide ((k : Int) ∉ [4, 4, 4]) = true then (1 : ℝ) else 0)
      = 1 - (if k = 4 then (1 : ℝ) else 0) := by
    intro k _
    by_cases h4 : k = 4
    · subst h4
      simp
    · have : (k : Int) ∉ [4, 4, 4] := by
        simp only [List.mem_cons, List.mem_singleton, List.not_mem_nil, or_false, or_self]
        omega
      simp [this, h4]
  unfold meanExcluding
  simp only [show FFT_SIZE / 2 = 256 from rfl]
  rw [sum_map_filter, length_filter_sum, sum_map_range, sum_map_range,
    Finset.sum_congr rfl hterm, Finset.sum_congr rfl hcount, Finset.sum_sub_distrib,
    Finset.sum_sub_distrib, show 256 = 4 * 64 from rfl, sum_comb]
  simp only [Finset.sum_ite_eq', Finset.mem_range]
  norm_num

end CombSearch

section CombAnalysis

theorem comb_window_spectrum (ops : MathOps ℝ ℂ) (hstd : ops.Standard) :
    (List.range 256).map (fun k => if 4 ∣ k then (1 / 64 : ℝ) else 0)
      = magnitudeSpectrum ops
          ((combSignal ops).drop ((combSignal ops).length - FFT_SIZE)) := by
  have h0 : (combSignal ops).length - FFT_SIZE = 0 := by
    rw [combSignal_length]
    rfl
  rw [h0, List.drop_zero, comb_spectrum ops hstd]

/-- C14, the claim as stated fails: on the comb buffer at 512 fps with a
target of 6 rpm the expected 1x bin is 0, the search window `[1, 2]` holds only
zeros, so `peak_amplitude` is 0 and `dominant_frequency` is 0, the frequency of
bin 0, whose magnitude is `1/64`; no bin `b` has both `spectrum[b] = 0` and
`interpolatePeak(spectrum, b) = 0`. -/
theorem dominant_from_expected_bin_counterexample :
    ∃ r : DSPResult ℝ,
      analyze (⟨Real.pi, Real.cos, fun rho theta => (rho : ℂ) * Complex.exp ((theta : ℂ) * Complex.I),
      fun z => Complex.abs z, fun re im => ⟨re, im⟩⟩ : MathOps ℝ ℂ)
        (combSignal (⟨Real.pi, Real.cos, fun rho theta => (rho : ℂ) * Complex.exp ((theta : ℂ) * Complex.I),
      fun z => Complex.abs z, fun re im => ⟨re, im⟩⟩ : MathOps ℝ ℂ))
        { actual_fps := 512, target_rpm := 6 } = some r ∧
      r.fault = FaultType.NO_FAULT ∧
      r.peak_amplitude = some 0 ∧ r.dominant_frequency = some 0 ∧
      r.spectrum.getD 0 0 = 1 / 64 ∧
      ¬ ∃ b : Nat, b < 256 ∧ r.peak_amplitude = some (r.spectrum.getD b 0) ∧
        ∃ e, interpolatePeak r.spectrum (b : Int) = some e ∧
          r.dominant_frequency = some (e * 512 / 512) := by
  have hlen : 512 ≤ (combSignal (⟨Real.pi, Real.cos, fun rho theta => (rho : ℂ) * Complex.exp ((theta : ℂ) * Complex.I),
      fun z => Complex.abs z, fun re im => ⟨re, im⟩⟩ : MathOps ℝ ℂ)).length := by
    rw [combSignal_length]
  have hb1 : (0 : Int) = cRound ((6 : ℝ) / 60.0 / (512 / (FFT_SIZE : ℝ))) := by
    rw [cRound_eq _ 0] <;> norm_num [FFT_SIZE]
  have hb2 : (0 : Int) = cRound ((6 : ℝ) / 60.0 * 2.0 / (512 / (FFT_SIZE : ℝ))) := by
    rw [cRound_eq _ 0] <;> norm_num [FFT_SIZE]
  have hb3 : (0 : Int) = cRound ((6 : ℝ) / 60.0 * 3.0 / (512 / (FFT_SIZE : ℝ))) := by
    rw [cRound_eq _ 0] <;> norm_num [FFT_SIZE]
  obtain ⟨e, hint, he⟩ := analyze_harmonic (⟨Real.pi, Real.cos, fun rho theta => (rho : ℂ) * Complex.exp ((theta : ℂ) * Complex.I),
      fun z => Complex.abs z, fun re im => ⟨re, im⟩⟩ : MathOps ℝ ℂ)
    (combSignal (⟨Real.pi, Real.cos, fun rho theta => (rho : ℂ) * Complex.exp ((theta : ℂ) * Complex.I),
      fun z => Complex.abs z, fun re im => ⟨re, im⟩⟩ : MathOps ℝ ℂ))
    { actual_fps := 512, target_rpm := 6 } hlen (by norm_num) (by norm_num)
    _ (comb_window_spectrum _ standard_ops) 0 0 0 hb1 hb2 hb3 _ rfl
  rw [comb_find_zero] at hint he
  have hedge := interpolatePeak_edge
    ((List.range 256).map (fun k => if 4 ∣ k then (1 / 64 : ℝ) else 0)) 0
    (by rw [comb_list_length]; norm_num) (by rw [comb_list_length]; norm_num)
    (Or.inl (le_refl _))
  have he0 : e = 0 := by
    have := Option.some.inj (hint.symm.trans hedge)
    rw [this]
    norm_num
  subst he0
  refine ⟨_, he, ?_, rfl, ?_, ?_, ?_⟩
  · show (classify _ _ _).1 = FaultType.NO_FAULT
    rw [classify_fault]
    norm_num
  · show some _ = some _
    rw [zero_mul]
  · show ((List.range 256).map (fun k => if 4 ∣ k then (1 / 64 : ℝ) else 0)).getD 0 0 = 1 / 64
    rw [comb_getD 0 (by norm_num), if_pos (by decide)]
  · rintro ⟨b, hb, hpeak, e2, hint2, hdom⟩
    have hpeak2 : ((List.range 256).map
        (fun k => if 4 ∣ k then (1 / 64 : ℝ) else 0)).getD b 0 = 0 :=
      (Option.some.inj hpeak).symm
    have hdom2 : (0 : ℝ) * (512 / (FFT_SIZE : ℝ)) = e2 * 512 / 512 := Option.some.inj hdom
    have he2 : e2 = 0 := by
      norm_num at hdom2
      exact hdom2.symm
    have hbpos : 1 ≤ b := by
      rcases Nat.eq_zero_or_pos b with h | h
      · subst h
        rw [comb_getD 0 (by norm_num), if_pos (by decide)] at hpeak2
        norm_num at hpeak2
      · exact h
    obtain ⟨v, hv, hbound, -⟩ := interpolatePeak_offset
      ((List.range 256).map (fun k => if 4 ∣ k then (1 / 64 : ℝ) else 0)) (b : Int)
      (by rw [comb_list_length]; norm_num) (by rw [comb_list_length]; norm_num)
    have hint3 : interpolatePeak
        ((List.range 256).map (fun k => if 4 ∣ k then (1 / 64 : ℝ) else 0)) (b : Int)
        = some e2 := hint2
    have hve : v = e2 := Option.some.inj (hv.symm.trans hint3)
    rw [hve, he2] at hbound
    have hb1 : (1 : ℝ) ≤ ((b : Int) : ℝ) := by exact_mod_cast hbpos
    have := (abs_lt.mp hbound).1
    linarith

/-- C15, the code at a failing input: on the comb buffer at 512 fps with a
target of 120 rpm the expected bins are 2, 4 and 6, all three searches locate
bin 4 (amplitude `1/64`), and the quotient `(noise_sum - amp_1x - amp_2x -
amp_3x) / 253` is `61/16192`, while the mean of the spectrum over the bins
other than the located one is `21/5440`. -/
theorem noise_floor_counts_peak_thrice :
    ∃ r : DSPResult ℝ,
      analyze (⟨Real.pi, Real.cos, fun rho theta => (rho : ℂ) * Complex.exp ((theta : ℂ) * Complex.I),
      fun z => Complex.abs z, fun re im => ⟨re, im⟩⟩ : MathOps ℝ ℂ)
        (combSignal (⟨Real.pi, Real.cos, fun rho theta => (rho : ℂ) * Complex.exp ((theta : ℂ) * Complex.I),
      fun z => Complex.abs z, fun re im => ⟨re, im⟩⟩ : MathOps ℝ ℂ))
        { actual_fps := 512, target_rpm := 120 } = some r ∧
      cRound ((120 : ℝ) / 60 / (512 / 512)) = 2 ∧
      cRound ((120 : ℝ) / 60 * 2 / (512 / 512)) = 4 ∧
      cRound ((120 : ℝ) / 60 * 3 / (512 / 512)) = 6 ∧
      findPeakAmplitude r.spectrum 2 = (1 / 64, 4) ∧
      findPeakAmplitude r.spectrum 4 = (1 / 64, 4) ∧
      findPeakAmplitude r.spectrum 6 = (1 / 64, 4) ∧
      rawNoiseFloor (r.spectrum.foldl (· + ·) (0.0 : ℝ)) (1 / 64) (1 / 64) (1 / 64)
        = 61 / 16192 ∧
      meanExcluding r.spectrum [4, 4, 4] = 21 / 5440 ∧
      r.fault = (classify ((1 / 64 : ℝ) / (61 / 16192)) ((1 / 64) / (61 / 16192))
        ((1 / 64) / (61 / 16192))).1 := by
  have hlen : 512 ≤ (combSignal (⟨Real.pi, Real.cos, fun rho theta => (rho : ℂ) * Complex.exp ((theta : ℂ) * Complex.I),
      fun z => Complex.abs z, fun re im => ⟨re, im⟩⟩ : MathOps ℝ ℂ)).length := by
    rw [combSignal_length]
  have hc1 : cRound ((120 : ℝ) / 60 / (512 / 512)) = 2 := by
    rw [cRound_eq _ 2] <;> norm_num
  have hc2 : cRound ((120 : ℝ) / 60 * 2 / (512 / 512)) = 4 := by
    rw [cRound_eq _ 4] <;> norm_num
  have hc3 : cRound ((120 : ℝ) / 60 * 3 / (512 / 512)) = 6 := by
    rw [cRound_eq _ 6] <;> norm_num
  have hb1 : (2 : Int) = cRound ((120 : ℝ) / 60.0 / (512 / (FFT_SIZE : ℝ))) := by
    rw [cRound_eq _ 2] <;> norm_num [FFT_SIZE]
  have hb2 : (4 : Int) = cRound ((120 : ℝ) / 60.0 * 2.0 / (512 / (FFT_SIZE : ℝ))) := by
    rw [cRound_eq _ 4] <;> norm_num [FFT_SIZE]
  have hb3 : (6 : Int) = cRound ((120 : ℝ) / 60.0 * 3.0 / (512 / (FFT_SIZE : ℝ))) := by
    rw [cRound_eq _ 6] <;> norm_num [FFT_SIZE]
  obtain ⟨e, -, he⟩ := analyze_harmonic (⟨Real.pi, Real.cos, fun rho theta => (rho : ℂ) * Complex.exp ((theta : ℂ) * Complex.I),
      fun z => Complex.abs z, fun re im => ⟨re, im⟩⟩ : MathOps ℝ ℂ)
    (combSignal (⟨Real.pi, Real.cos, fun rho theta => (rho : ℂ) * Complex.exp ((theta : ℂ) * Complex.I),
      fun z => Complex.abs z, fun re im => ⟨re, im⟩⟩ : MathOps ℝ ℂ))
    { actual_fps := 512, target_rpm := 120 } hlen (by norm_num) (by norm_num)
    _ (comb_window_spectrum _ standard_ops) 2 4 6 hb1 hb2 hb3 _ rfl
  have hraw : rawNoiseFloor (((List.range 256).map
      (fun k => if 4 ∣ k then (1 / 64 : ℝ) else 0)).foldl (· + ·) (0.0 : ℝ))
      (1 / 64) (1 / 64) (1 / 64) = 61 / 16192 := by
    rw [noise_sum_eq, comb_list_sum]
    norm_num [rawNoiseFloor, FFT_SIZE]
  rw [comb_find_four 2 (Or.inl rfl), comb_find_four 4 (Or.inr (Or.inl rfl)),
    comb_find_four 6 (Or.inr (Or.inr rfl)), noise_sum_eq, comb_list_sum,
    noiseFloor_eq_max] at he
  refine ⟨_, he, hc1, hc2, hc3, comb_find_four 2 (Or.inl rfl),
    comb_find_four 4 (Or.inr (Or.inl rfl)), comb_find_four 6 (Or.inr (Or.inr rfl)),
    hraw, comb_mean_excluding, ?_⟩
  have hmax : max (1 / 10000 : ℝ) ((1 - 1 / 64 - 1 / 64 - 1 / 64) / 253) = 61 / 16192 := by
    rw [max_eq_right] <;> norm_num
  dsimp only
  rw [hmax]

theorem dominant_from_peak_bin_witness :
    (∀ z : ℂ, 0 ≤ Complex.abs z) ∧
    ∃ r : DSPResult ℝ,
      analyze (⟨Real.pi, Real.cos, fun rho theta => (rho : ℂ) * Complex.exp ((theta : ℂ) * Complex.I),
      fun z => Complex.abs z, fun re im => ⟨re, im⟩⟩ : MathOps ℝ ℂ)
        (List.replicate 512 (0 : ℝ)) { actual_fps := 30, target_rpm := 0 } = some r ∧
      r.fault ≠ FaultType.UNMEASURABLE ∧ r.fault ≠ FaultType.INSUFFICIENT_DATA ∧
      ∃ b : Nat, b < 256 ∧ r.peak_amplitude = some (r.spectrum.getD b 0) ∧
        ∃ e, interpolatePeak r.spectrum (b : Int) = some e ∧
          r.dominant_frequency = some (e * 30 / 512) := by
  refine ⟨fun z => AbsoluteValue.nonneg _ z, ?_⟩
  obtain ⟨e, -, he⟩ := analyze_blind (⟨Real.pi, Real.cos, fun rho theta => (rho : ℂ) * Complex.exp ((theta : ℂ) * Complex.I),
      fun z => Complex.abs z, fun re im => ⟨re, im⟩⟩ : MathOps ℝ ℂ)
    (List.replicate 512 (0 : ℝ)) { actual_fps := 30, target_rpm := 0 }
    (List.length_replicate _ _).ge (le_refl _)
  refine ⟨_, he, by simp, by simp, ?_⟩
  rcases dominant_from_peak_bin (⟨Real.pi, Real.cos, fun rho theta => (rho : ℂ) * Complex.exp ((theta : ℂ) * Complex.I),
      fun z => Complex.abs z, fun re im => ⟨re, im⟩⟩ : MathOps ℝ ℂ)
    (fun z => AbsoluteValue.nonneg _ z) (List.replicate 512 (0 : ℝ))
    { actual_fps := 30, target_rpm := 0 } _ he (by simp) (by simp) with h | ⟨hpos, -⟩
  · exact h
  · exact absurd hpos (lt_irrefl _)

end CombAnalysis

end VibraVision
